import Mathlib

/-!
Verification of the gate-course and scoring engine of the airdrift repository
(src/game/gameplay/GateCourse.ts and src/game/gameplay/ScoreSystem.ts).

Modelling conventions, chosen to keep every definition executable over exact
arithmetic while staying faithful to the TypeScript source:

* JavaScript numbers are modelled as rationals (ℚ).  The source's
  MathUtils.clamp, Math.floor, Math.trunc, Math.max/min are exact on
  rationals and embedded directly.  Non-finite values (NaN/Infinity), which
  the error-handling claims are about, are modelled separately by the JsNum
  type further below, with JavaScript's comparison semantics (every ordering
  comparison involving NaN is false).
* `dist > farRecycle` in the source compares a Euclidean length (a square
  root); we compare the squared length against the squared constant, which is
  equivalent because both sides are non-negative.
* `Math.sqrt` inside the centering bonus (floor(80·clamp(1 − √(nx²+ny²), 0, 1)))
  is embedded by the exact integer characterisation `centerScoreFloor` (the
  floor is the greatest j ∈ [0,80] with 6400·(nx²+ny²) ≤ (80−j)²); the lemma
  `centerScoreFloor_eq_floor` proves it equal to the source's real-number
  expression.
* `Math.random()` draws are an explicit oracle: a list of rationals consumed
  front-to-back (the JS contract guarantees each draw lies in [0,1), which
  appears as the hypothesis `RngOk` where a theorem needs it; an exhausted
  list yields 0, itself a legal draw, so the model never leaves the JS
  contract).
* The gate's Object3D transform is represented by its position together with
  the RAW look direction `axisZraw` (the lookAt target minus the gate's
  position) that `lookAt` on a THREE.Group with up = (0,1,0) normalises into
  the frame's +Z axis.  The remaining axes follow three.js Matrix4.lookAt
  exactly: X ∝ up × axisZraw = (axisZraw.z, 0, −axisZraw.x) and
  Y ∝ axisZraw × Xraw, each normalised by its own length.  A respawned
  gate's lookAt target keeps the agent's altitude while the gate itself sits
  at the jittered height, so its frame is tilted by that altitude
  difference; the raw direction stores the tilt exactly.  The normalising
  lengths are square roots (irrational over ℚ), so the containment guards
  |d·A/‖A‖| > b of the pass check are embedded as the equivalent squared
  comparisons (d·A)² > b²·‖A‖² (exact over ℚ; both sides of the original
  comparison are non-negative), the centering offset s = nx² + ny² is the
  rational (d·X)²/((W/2)²·‖X‖²) + (d·Y)²/((H/2)²·‖Y‖²), and the normalised
  local frame itself is available as the real-valued `Gate.worldToLocal`
  for specification statements.  The initial identity orientation of a
  freshly built gate corresponds to axisZraw = (0,0,1).  The source derives
  the forward vector from the XZ velocity (normalised) or from the
  quaternion's yaw (a rotation of (0,0,−1)), both of which always yield a
  *horizontal unit* vector; normalisation and yaw extraction are irrational
  over ℚ, so the per-tick functions take the derived forward vector as a
  parameter and the theorems carry the horizontal-unit fact as the
  hypothesis `HorizUnit`.
* `displayScore`, the exponentially smoothed presentation copy of the score
  (`Math.exp`), is presentation-only state read by no claim and is omitted
  from the ScoreSystem record; everything else in ScoreSystem.ts is embedded.
* The glow material opacity (setGateGlow) is rendering state and not
  modelled; the `userData.flash` timer is the `flash` field.
-/

/-! ## Small JavaScript arithmetic helpers on ℚ -/

/-- THREE.MathUtils.clamp(value, lo, hi) = Math.max(lo, Math.min(hi, value)). -/
def clampQ (v lo hi : ℚ) : ℚ := max lo (min hi v)

/-- Math.trunc: truncation toward zero. -/
def jsTrunc (q : ℚ) : ℤ := if 0 ≤ q then ⌊q⌋ else ⌈q⌉

/-! ## ScoreSystem (src/game/gameplay/ScoreSystem.ts), over ℚ

Tuneables from the source: COMBO_MAX = 3.0, COMBO_GROW_PER_GATE = 0.12,
COMBO_DECAY_PER_SEC = 0.18, CRASH_BASE = 120, CRASH_PER_SPEED = 22,
COMBO_LOCK_SEC = 0.55. -/

structure ScoreSystem where
  score : ℤ
  combo : ℚ
  streak : ℕ
  gatesPassed : ℕ
  gatesTotal : ℤ
  lastAdd : ℤ
  penaltyFlash : ℚ
  timeSinceScore : ℚ
  comboLock : ℚ
deriving DecidableEq

/-- The constructor state of ScoreSystem. -/
def ScoreSystem.init : ScoreSystem :=
  ⟨0, 1, 0, 0, 0, 0, 0, 999, 0⟩

/-- `update(dt)`: advance timers, decay combo after 1.25 s without scoring
(display-score smoothing omitted, see the header). -/
def ScoreSystem.update (st : ScoreSystem) (dt : ℚ) : ScoreSystem :=
  let tss := st.timeSinceScore + dt
  let lock := max 0 (st.comboLock - dt)
  let flash := max 0 (st.penaltyFlash - dt * 2.2)
  if 1.25 < tss then
    let c := max 1 (st.combo - 0.18 * dt)
    { st with timeSinceScore := tss, comboLock := lock, penaltyFlash := flash,
              combo := c, streak := if c = 1 then 0 else st.streak }
  else
    { st with timeSinceScore := tss, comboLock := lock, penaltyFlash := flash }

/-- `add(points, reason, applyCombo)`.  The `reason` string is logging-only and
dropped.  `Number.isFinite(points)` is vacuous over ℚ (the JsNum model below
carries the actual guard). -/
def ScoreSystem.add (st : ScoreSystem) (points : ℚ) (applyCombo : Bool) : ScoreSystem :=
  let raw := jsTrunc points
  let applied := if applyCombo then jsTrunc ((raw : ℚ) * st.combo) else raw
  { st with score := max 0 (st.score + applied),
            lastAdd := applied,
            timeSinceScore := if applied ≠ 0 then 0 else st.timeSinceScore }

/-- `onGateCleared(base, centerBonus, speedBonus)`. -/
def ScoreSystem.onGateCleared (st : ScoreSystem) (base centerBonus speedBonus : ℚ) : ScoreSystem :=
  let st1 := { st with gatesPassed := st.gatesPassed + 1 }
  let st2 := st1.add base true
  let st3 := if 0 < centerBonus then st2.add centerBonus true else st2
  let st4 := if 0 < speedBonus then st3.add speedBonus true else st3
  let st5 := { st4 with streak := st4.streak + 1 }
  if st5.comboLock ≤ 0 then
    { st5 with combo := clampQ (st5.combo + 0.12) 1 3 }
  else st5

/-- `breakCombo(flash)`. -/
def ScoreSystem.breakCombo (st : ScoreSystem) (flash : Bool) : ScoreSystem :=
  { st with combo := 1, streak := 0, timeSinceScore := 999,
            penaltyFlash := if flash then 1 else st.penaltyFlash }

/-- `onPenalty(points)`: add −|points| with no combo multiplier, then break the
combo. -/
def ScoreSystem.onPenalty (st : ScoreSystem) (points : ℚ) : ScoreSystem :=
  (st.add (-|points|) false).breakCombo true

/-- `onCrash(speed)` (finite speed; the JsNum model carries the isFinite
guard): penalty = max(120, floor(120 + speed·22)), no multiplier, break combo,
lock combo growth for 0.55 s, full penalty flash. -/
def ScoreSystem.onCrash (st : ScoreSystem) (speed : ℚ) : ScoreSystem :=
  let penalty : ℤ := max 120 ⌊(120 : ℚ) + speed * 22⌋
  let st1 := (st.add (-(penalty : ℚ)) false).breakCombo true
  { st1 with comboLock := 0.55, penaltyFlash := 1 }

/-- `setGateTotal(total)`: `total | 0` is int32 truncation. -/
def ScoreSystem.setGateTotal (st : ScoreSystem) (total : ℚ) : ScoreSystem :=
  let t32 := (jsTrunc total + 2 ^ 31) % 2 ^ 32 - 2 ^ 31
  { st with gatesTotal := max 0 t32 }

/-- The presentation snapshot (displayScore omitted, see the header). -/
structure ScoreSnapshot where
  score : ℤ
  combo : ℚ
  comboTier : ℤ
  streak : ℕ
  gatesPassed : ℕ
  gatesTotal : ℤ
  lastAdd : ℤ
  penaltyFlash : ℚ
deriving DecidableEq

/-- `getSnapshot()` with comboTier = max(0, floor((combo − 1)/0.4)). -/
def ScoreSystem.getSnapshot (st : ScoreSystem) : ScoreSnapshot :=
  ⟨st.score, st.combo, max 0 ⌊(st.combo - 1) / 0.4⌋, st.streak,
   st.gatesPassed, st.gatesTotal, st.lastAdd, st.penaltyFlash⟩

/-! ## Geometry -/

structure V3 where
  x : ℚ
  y : ℚ
  z : ℚ
deriving DecidableEq

def V3.add (a b : V3) : V3 := ⟨a.x + b.x, a.y + b.y, a.z + b.z⟩

def V3.sub (a b : V3) : V3 := ⟨a.x - b.x, a.y - b.y, a.z - b.z⟩

def V3.smul (c : ℚ) (a : V3) : V3 := ⟨c * a.x, c * a.y, c * a.z⟩

def V3.dot (a b : V3) : ℚ := a.x * b.x + a.y * b.y + a.z * b.z

def V3.cross (a b : V3) : V3 :=
  ⟨a.y * b.z - a.z * b.y, a.z * b.x - a.x * b.z, a.x * b.y - a.y * b.x⟩

/-- The forward vectors the source derives (normalised XZ velocity, or a
yaw-only rotation of (0,0,−1), or the persisted copy of a previous one) are
horizontal unit vectors. -/
def HorizUnit (v : V3) : Prop := v.y = 0 ∧ v.x ^ 2 + v.z ^ 2 = 1

instance (v : V3) : Decidable (HorizUnit v) := by
  unfold HorizUnit; infer_instance

/-! ## GateCourse (src/game/gameplay/GateCourse.ts) -/

/-- One slot of the fixed gate pool: transform (position + raw look
direction, see the header), the passed / wasAhead flags, the lane of the last
spawn, and the userData.flash timer. -/
structure Gate where
  pos : V3
  axisZraw : V3
  passed : Bool
  wasAhead : Bool
  lane : ℤ
  flash : ℚ
deriving DecidableEq

/-- Raw local +X axis of the lookAt frame: up × axisZraw (three.js
Matrix4.lookAt normalises it; its length is the horizontal length of the look
direction). -/
def Gate.axisXraw (g : Gate) : V3 := ⟨g.axisZraw.z, 0, -g.axisZraw.x⟩

/-- Raw local +Y axis of the lookAt frame: z × x on the raw axes (a positive
multiple of the normalised cross product three.js computes). -/
def Gate.axisYraw (g : Gate) : V3 := V3.cross g.axisZraw g.axisXraw

/-- Coordinates over ℝ (the normalised local frame involves square roots). -/
structure R3 where
  x : ℝ
  y : ℝ
  z : ℝ

/-- `group.worldToLocal(p)`: subtract the position and multiply by the
inverse (transpose) rotation, i.e. dot with the orthonormal frame axes —
each raw axis divided by its length.  Real-valued; the executable pipeline
below uses the equivalent squared rational comparisons instead (see the
header). -/
noncomputable def Gate.worldToLocal (g : Gate) (p : V3) : R3 :=
  let d := V3.sub p g.pos
  ⟨(V3.dot d g.axisXraw : ℝ) / Real.sqrt ((V3.dot g.axisXraw g.axisXraw : ℚ) : ℝ),
   (V3.dot d g.axisYraw : ℝ) / Real.sqrt ((V3.dot g.axisYraw g.axisYraw : ℚ) : ℝ),
   (V3.dot d g.axisZraw : ℝ) / Real.sqrt ((V3.dot g.axisZraw g.axisZraw : ℚ) : ℝ)⟩

-- Gate geometry / spawn / recycle / scoring constants of GateCourse.

def gateW : ℚ := 10.5

def gateH : ℚ := 6.0

def triggerDepth : ℚ := 3.2

def gateCount : ℕ := 22

def spawnMin : ℚ := 70

def spawnMax : ℚ := 220

def lateralLane : ℚ := 11

def verticalCenter : ℚ := 2.6

def verticalJitter : ℚ := 1.0

def behindRecycle : ℚ := 18

def farRecycle : ℚ := 320

def basePoints : ℤ := 100

def centerBonusMax : ℚ := 80

def speedBonusMax : ℚ := 50

def speedForMax : ℚ := 18

def missPenalty : ℚ := 140

def missFlashSeconds : ℚ := 0.35

/-- The calls GateCourse makes into ScoreSystem during one update. -/
inductive Call where
  | cleared (base centerBonus speedBonus : ℤ)
  | penalty (points : ℚ)
  | breakCombo (flash : Bool)
deriving DecidableEq

def applyCall (st : ScoreSystem) : Call → ScoreSystem
  | Call.cleared b c s => st.onGateCleared (b : ℚ) (c : ℚ) (s : ℚ)
  | Call.penalty p => st.onPenalty p
  | Call.breakCombo f => st.breakCombo f

def applyCalls (st : ScoreSystem) (cs : List Call) : ScoreSystem :=
  cs.foldl applyCall st

/-- Lane-selection state (lastLane, sameLaneStreak) together with the random
oracle. -/
structure Ctx where
  lastLane : ℤ
  streak : ℕ
  rng : List ℚ
deriving DecidableEq

/-- Every pending random draw obeys the Math.random() contract. -/
def RngOk (rng : List ℚ) : Prop := ∀ q ∈ rng, 0 ≤ q ∧ q < 1

instance (rng : List ℚ) : Decidable (RngOk rng) := by
  unfold RngOk; infer_instance

/-- `chooseLane()`: returns the lane and the updated (lastLane, streak, rng).
`lanes[Math.floor(Math.random()*lanes.length)]` is `List.getD` at the floored
index (in bounds whenever the draw is in [0,1)). -/
def GateCourse.chooseLane (lastLane : ℤ) (streak : ℕ) (rng : List ℚ) :
    ℤ × ℤ × ℕ × List ℚ :=
  let lanes : List ℤ := [-1, 0, 1]
  let forceChange := 2 ≤ streak
  let r1 := rng.headD 0
  let rng1 := rng.tail
  let lane0 := lanes.getD (Int.toNat ⌊r1 * (lanes.length : ℚ)⌋) 0
  let pick : ℚ → ℤ := fun r =>
    let choices := lanes.filter (fun x => x ≠ lastLane)
    choices.getD (Int.toNat ⌊r * (choices.length : ℚ)⌋) 0
  let finish : ℤ → List ℚ → ℤ × ℤ × ℕ × List ℚ := fun lane rng' =>
    (lane, lane, if lane = lastLane then streak + 1 else 0, rng')
  if forceChange then
    finish (pick (rng1.headD 0)) rng1.tail
  else
    let r2 := rng1.headD 0
    let rng2 := rng1.tail
    if r2 < 0.35 then finish (pick (rng2.headD 0)) rng2.tail
    else finish lane0 rng2

/-- `respawnGate(g, pos, fwd)`: sample the distance ahead, choose a lane,
jitter laterally and vertically, place the gate at (spawn.x, y, spawn.z),
and lookAt the target spawn + 10·fwd.  The stored `axisZraw` is the raw look
direction (target minus gate position): its horizontal part is exactly
10·fwd, its vertical part is spawn.y − y — the target keeps the agent's
altitude while the gate sits at the jittered height, so the frame tilts by
that offset.  The passed / wasAhead flags are reset.
`tmpRight.set(fwd.z, 0, −fwd.x).normalize()` appears without the normalise:
for a horizontal unit fwd the vector is already unit. -/
def GateCourse.respawnGate (pos fwd : V3) (ctx : Ctx) (g : Gate) : Gate × Ctx :=
  let rd := ctx.rng.headD 0
  let rng1 := ctx.rng.tail
  let d := spawnMin + rd * (spawnMax - spawnMin)
  let right : V3 := ⟨fwd.z, 0, -fwd.x⟩
  let cl := GateCourse.chooseLane ctx.lastLane ctx.streak rng1
  let lane := cl.1
  let rlat := cl.2.2.2.headD 0
  let rng2 := cl.2.2.2.tail
  let lateral := (lane : ℚ) * lateralLane + (2 * rlat - 1) * (lateralLane * 0.18)
  let ry := rng2.headD 0
  let rng3 := rng2.tail
  let y := verticalCenter + (2 * ry - 1) * verticalJitter
  let spawn := V3.add (V3.add pos (V3.smul d fwd)) (V3.smul lateral right)
  let gpos : V3 := ⟨spawn.x, y, spawn.z⟩
  let look := V3.sub (V3.add spawn (V3.smul 10 fwd)) gpos
  (⟨gpos, look, false, false, lane, g.flash⟩,
   ⟨cl.2.1, cl.2.2.1, rng3⟩)

/-- The recycle condition of pass 1: behind by more than behindRecycle along
the forward direction, or farther than farRecycle (squared comparison, see the
header). -/
def GateCourse.shouldRecycle (pos fwd : V3) (g : Gate) : Bool :=
  let toGate := V3.sub g.pos pos
  decide (V3.dot toGate fwd < -behindRecycle) ||
  decide (farRecycle ^ 2 < V3.dot toGate toGate)

/-- Pass 1 for one gate: the sticky wasAhead update, then — when the recycle
condition holds — the miss handling of `onGateMissed` (flash to 1, the
onPenalty and breakCombo calls, wasAhead := false and passed := true against
double penalties, flash := max(flash, missFlashSeconds)) followed by the
unconditional respawn. -/
def GateCourse.recycleStep (pos fwd : V3) (ctx : Ctx) (g : Gate) :
    Gate × Ctx × List Call :=
  let toGate := V3.sub g.pos pos
  let ahead := V3.dot toGate fwd
  let g1 := if 0 < ahead then { g with wasAhead := true } else g
  if GateCourse.shouldRecycle pos fwd g then
    if g1.passed = false ∧ g1.wasAhead = true then
      let g2 := { g1 with flash := max (1 : ℚ) missFlashSeconds,
                          wasAhead := false, passed := true }
      let out := GateCourse.respawnGate pos fwd ctx g2
      (out.1, out.2, [Call.penalty missPenalty, Call.breakCombo true])
    else
      let out := GateCourse.respawnGate pos fwd ctx g1
      (out.1, out.2, [])
  else (g1, ctx, [])

/-- Exact value of Math.floor(centerBonusMax · clamp(1 − √s, 0, 1)) for
s = nx² + ny² ≥ 0: the greatest j ∈ [0,80] with 6400·s ≤ (80 − j)², i.e. one
less than how many j ∈ [0,80] satisfy it (the satisfying set is a prefix of
the range because (80 − j)² is decreasing there).  Proved equal to the
real-number expression in `centerScoreFloor_eq_floor`. -/
def centerScoreFloor (s : ℚ) : ℤ :=
  if 1 < s then 0
  else (((List.range 81).filter
          (fun (j : ℕ) => decide (6400 * s ≤ (((80 : ℤ) - (j : ℤ) : ℤ) : ℚ) ^ 2))).length : ℤ) - 1

/-- Pass 2 for one gate: skip if already passed, transform the agent position
into the gate frame, test the three half-extents, and on containment mark the
gate passed, flash it, and emit the cleared call with the centering and speed
bonuses.  The source tests the normalised local coordinates
|d·A/‖A‖| > bound; each is embedded as the equivalent squared rational
comparison (d·A)² > bound²·‖A‖² (both sides of the original comparison are
non-negative), and nx² + ny² likewise becomes the exact rational below (a
zero-length axis, which only a degenerate look direction no reachable gate
has could produce, makes both forms fall through their guard). -/
def GateCourse.passCheck (pos : V3) (speed : ℚ) (g : Gate) : Gate × List Call :=
  if g.passed then (g, [])
  else
    let d := V3.sub pos g.pos
    let lx := V3.dot d g.axisXraw
    let ly := V3.dot d g.axisYraw
    let lz := V3.dot d g.axisZraw
    let hSq := V3.dot g.axisXraw g.axisXraw
    let ySq := V3.dot g.axisYraw g.axisYraw
    let nSq := V3.dot g.axisZraw g.axisZraw
    if (triggerDepth * (1/2)) ^ 2 * nSq < lz ^ 2 then (g, [])
    else if (gateW * (1/2)) ^ 2 * hSq < lx ^ 2 then (g, [])
    else if (gateH * (1/2)) ^ 2 * ySq < ly ^ 2 then (g, [])
    else
      let g' := { g with passed := true, wasAhead := false, flash := (1 : ℚ) }
      let s := lx ^ 2 / ((gateW * (1/2)) ^ 2 * hSq) + ly ^ 2 / ((gateH * (1/2)) ^ 2 * ySq)
      let centerScore := centerScoreFloor s
      let t := clampQ (speed / speedForMax) 0 1
      let speedScore := ⌊speedBonusMax * t⌋
      (g', [Call.cleared basePoints centerScore speedScore])

/-- Pass 1 over the pool, threading the lane/rng context. -/
def GateCourse.pass1 (pos fwd : V3) (ctx : Ctx) :
    List Gate → List Gate × Ctx × List Call
  | [] => ([], ctx, [])
  | g :: gs =>
    let r := GateCourse.recycleStep pos fwd ctx g
    let rest := GateCourse.pass1 pos fwd r.2.1 gs
    (r.1 :: rest.1, rest.2.1, r.2.2 ++ rest.2.2)

/-- Pass 2 over the pool. -/
def GateCourse.pass2 (pos : V3) (speed : ℚ) :
    List Gate → List Gate × List Call
  | [] => ([], [])
  | g :: gs =>
    let r := GateCourse.passCheck pos speed g
    let rest := GateCourse.pass2 pos speed gs
    (r.1 :: rest.1, r.2 ++ rest.2)

/-- The mutable state of the GateCourse class. -/
structure GateCourse where
  gates : List Gate
  lastLane : ℤ
  sameLaneStreak : ℕ
  fallbackForward : V3
deriving DecidableEq

/-- The gates built by the constructor: staggered ahead of the origin with the
identity orientation. -/
def initGates : List Gate :=
  (List.range gateCount).map
    (fun i => ⟨⟨0, verticalCenter, -80 - 18 * (i : ℚ)⟩, ⟨0, 0, 1⟩, false, false, 0, 0⟩)

def GateCourse.init : GateCourse := ⟨initGates, 0, 0, ⟨0, 0, -1⟩⟩

/-- `update(dt, pos, speed, quat?, velXZ?)`: derive the forward vector (taken
here as the parameter `fwd`, see the header), persist it as the fallback, run
the miss/recycle pass, then the pass-detection pass.  Returns the new state,
the ScoreSystem calls in program order, and the remaining oracle. -/
def GateCourse.update (dt : ℚ) (pos : V3) (speed : ℚ) (fwd : V3)
    (st : GateCourse) (rng : List ℚ) : GateCourse × List Call × List ℚ :=
  let _ := dt
  let _ := speed
  let p1 := GateCourse.pass1 pos fwd ⟨st.lastLane, st.sameLaneStreak, rng⟩ st.gates
  let p2 := GateCourse.pass2 pos speed p1.1
  (⟨p2.1, p1.2.1.lastLane, p1.2.1.streak, fwd⟩,
   p1.2.2 ++ p2.2, p1.2.1.rng)

/-! ## JavaScript number semantics with NaN and Infinity

The error-handling claim is about non-finite inputs, which ℚ cannot
represent.  `JsNum` is a rational with NaN and signed Infinity added, with
JavaScript's arithmetic and comparison semantics (every ordering comparison
involving NaN is false; `inf true` is +Infinity).  The per-tick pipeline is
repeated over JsNum below, mirroring the same source lines as the ℚ model;
ScoreSystem keeps its ℚ-valued state and receives JsNum only at its
`Number.isFinite`-guarded boundary (`addJ`, `onCrashJ`), exactly as in the
source. -/

inductive JsNum where
  | fin (q : ℚ)
  | inf (positive : Bool)
  | nan
deriving DecidableEq

def JsNum.isFinite : JsNum → Bool
  | JsNum.fin _ => true
  | _ => false

def jsNeg : JsNum → JsNum
  | JsNum.fin q => JsNum.fin (-q)
  | JsNum.inf s => JsNum.inf (!s)
  | JsNum.nan => JsNum.nan

def jsAdd : JsNum → JsNum → JsNum
  | JsNum.nan, _ => JsNum.nan
  | _, JsNum.nan => JsNum.nan
  | JsNum.fin a, JsNum.fin b => JsNum.fin (a + b)
  | JsNum.fin _, JsNum.inf s => JsNum.inf s
  | JsNum.inf s, JsNum.fin _ => JsNum.inf s
  | JsNum.inf s, JsNum.inf t => if s = t then JsNum.inf s else JsNum.nan

def jsSub (a b : JsNum) : JsNum := jsAdd a (jsNeg b)

def jsMul : JsNum → JsNum → JsNum
  | JsNum.nan, _ => JsNum.nan
  | _, JsNum.nan => JsNum.nan
  | JsNum.fin a, JsNum.fin b => JsNum.fin (a * b)
  | JsNum.fin a, JsNum.inf s =>
    if a = 0 then JsNum.nan else JsNum.inf (decide (0 < a) = s)
  | JsNum.inf s, JsNum.fin a =>
    if a = 0 then JsNum.nan else JsNum.inf (decide (0 < a) = s)
  | JsNum.inf s, JsNum.inf t => JsNum.inf (s = t)

/-- JS division (ℚ has no signed zero; a zero divisor is treated as +0, which
no modelled code path exercises — the only divisors are nonzero constants). -/
def jsDiv : JsNum → JsNum → JsNum
  | JsNum.nan, _ => JsNum.nan
  | _, JsNum.nan => JsNum.nan
  | JsNum.fin a, JsNum.fin b =>
    if b = 0 then (if a = 0 then JsNum.nan else JsNum.inf (decide (0 < a)))
    else JsNum.fin (a / b)
  | JsNum.fin _, JsNum.inf _ => JsNum.fin 0
  | JsNum.inf s, JsNum.fin b => JsNum.inf (s = decide (0 ≤ b))
  | JsNum.inf _, JsNum.inf _ => JsNum.nan

def jsAbs : JsNum → JsNum
  | JsNum.fin q => JsNum.fin |q|
  | JsNum.inf _ => JsNum.inf true
  | JsNum.nan => JsNum.nan

/-- The boolean value of a JS `<` comparison (false whenever NaN is involved). -/
def jsLtB : JsNum → JsNum → Bool
  | JsNum.fin a, JsNum.fin b => decide (a < b)
  | JsNum.fin _, JsNum.inf s => s
  | JsNum.inf s, JsNum.fin _ => !s
  | JsNum.inf s, JsNum.inf t => !s && t
  | _, _ => false

def jsGtB (a b : JsNum) : Bool := jsLtB b a

/-- Math.max (NaN-propagating). -/
def jsMax : JsNum → JsNum → JsNum
  | JsNum.nan, _ => JsNum.nan
  | _, JsNum.nan => JsNum.nan
  | a, b => if jsLtB a b then b else a

/-- Math.min (NaN-propagating). -/
def jsMin : JsNum → JsNum → JsNum
  | JsNum.nan, _ => JsNum.nan
  | _, JsNum.nan => JsNum.nan
  | a, b => if jsLtB b a then b else a

def jsFloorN : JsNum → JsNum
  | JsNum.fin q => JsNum.fin (⌊q⌋ : ℚ)
  | JsNum.inf s => JsNum.inf s
  | JsNum.nan => JsNum.nan

structure JV3 where
  x : JsNum
  y : JsNum
  z : JsNum
deriving DecidableEq

def JV3.add (a b : JV3) : JV3 := ⟨jsAdd a.x b.x, jsAdd a.y b.y, jsAdd a.z b.z⟩

def JV3.sub (a b : JV3) : JV3 := ⟨jsSub a.x b.x, jsSub a.y b.y, jsSub a.z b.z⟩

def JV3.smul (c : JsNum) (a : JV3) : JV3 := ⟨jsMul c a.x, jsMul c a.y, jsMul c a.z⟩

def JV3.dot (a b : JV3) : JsNum :=
  jsAdd (jsAdd (jsMul a.x b.x) (jsMul a.y b.y)) (jsMul a.z b.z)

def jsCross (a b : JV3) : JV3 :=
  ⟨jsSub (jsMul a.y b.z) (jsMul a.z b.y),
   jsSub (jsMul a.z b.x) (jsMul a.x b.z),
   jsSub (jsMul a.x b.y) (jsMul a.y b.x)⟩

/-- Gate record with JsNum transform components (the position and raw look
direction written by a respawn are whatever the JsNum arithmetic produced). -/
structure JGate where
  pos : JV3
  axisZraw : JV3
  passed : Bool
  wasAhead : Bool
  lane : ℤ
  flash : ℚ
deriving DecidableEq

def JGate.axisXraw (g : JGate) : JV3 := ⟨g.axisZraw.z, JsNum.fin 0, jsNeg g.axisZraw.x⟩

def JGate.axisYraw (g : JGate) : JV3 := jsCross g.axisZraw g.axisXraw

/-- ScoreSystem call payloads as the engine computes them over JsNum. -/
inductive JsCall where
  | cleared (base centerBonus speedBonus : JsNum)
  | penalty (points : ℚ)
  | breakCombo (flash : Bool)
deriving DecidableEq

/-- `add` as reached from JS: the `Number.isFinite(points)` guard returns with
no state change on NaN/Infinity; finite values take the ℚ path. -/
def ScoreSystem.addJ (st : ScoreSystem) (p : JsNum) (applyCombo : Bool) : ScoreSystem :=
  match p with
  | JsNum.fin q => st.add q applyCombo
  | _ => st

/-- `onGateCleared` with JsNum payloads (the `centerBonus > 0` / `speedBonus > 0`
guards are JS comparisons, false on NaN). -/
def ScoreSystem.onGateClearedJ (st : ScoreSystem) (b c s : JsNum) : ScoreSystem :=
  let st1 := { st with gatesPassed := st.gatesPassed + 1 }
  let st2 := st1.addJ b true
  let st3 := if jsGtB c (JsNum.fin 0) then st2.addJ c true else st2
  let st4 := if jsGtB s (JsNum.fin 0) then st3.addJ s true else st3
  let st5 := { st4 with streak := st4.streak + 1 }
  if st5.comboLock ≤ 0 then
    { st5 with combo := clampQ (st5.combo + 0.12) 1 3 }
  else st5

/-- `onCrash` as reached from JS: `s = Number.isFinite(speed) ? speed : 0`. -/
def ScoreSystem.onCrashJ (st : ScoreSystem) (speed : JsNum) : ScoreSystem :=
  st.onCrash (match speed with | JsNum.fin q => q | _ => 0)

def jsApplyCall (st : ScoreSystem) : JsCall → ScoreSystem
  | JsCall.cleared b c s => st.onGateClearedJ b c s
  | JsCall.penalty p => st.onPenalty p
  | JsCall.breakCombo f => st.breakCombo f

def jsApplyCalls (st : ScoreSystem) (cs : List JsCall) : ScoreSystem :=
  cs.foldl jsApplyCall st

def jsRespawnGate (pos fwd : JV3) (ctx : Ctx) (g : JGate) : JGate × Ctx :=
  let rd := ctx.rng.headD 0
  let rng1 := ctx.rng.tail
  let d := spawnMin + rd * (spawnMax - spawnMin)
  let right : JV3 := ⟨fwd.z, JsNum.fin 0, jsNeg fwd.x⟩
  let cl := GateCourse.chooseLane ctx.lastLane ctx.streak rng1
  let lane := cl.1
  let rlat := cl.2.2.2.headD 0
  let rng2 := cl.2.2.2.tail
  let lateral := (lane : ℚ) * lateralLane + (2 * rlat - 1) * (lateralLane * 0.18)
  let ry := rng2.headD 0
  let rng3 := rng2.tail
  let y := verticalCenter + (2 * ry - 1) * verticalJitter
  let spawn := JV3.add (JV3.add pos (JV3.smul (JsNum.fin d) fwd))
                       (JV3.smul (JsNum.fin lateral) right)
  let gpos : JV3 := ⟨spawn.x, JsNum.fin y, spawn.z⟩
  let look := JV3.sub (JV3.add spawn (JV3.smul (JsNum.fin 10) fwd)) gpos
  (⟨gpos, look, false, false, lane, g.flash⟩,
   ⟨cl.2.1, cl.2.2.1, rng3⟩)

def jsShouldRecycle (pos fwd : JV3) (g : JGate) : Bool :=
  let toGate := JV3.sub g.pos pos
  jsLtB (JV3.dot toGate fwd) (JsNum.fin (-behindRecycle)) ||
  jsGtB (JV3.dot toGate toGate) (JsNum.fin (farRecycle ^ 2))

def jsRecycleStep (pos fwd : JV3) (ctx : Ctx) (g : JGate) :
    JGate × Ctx × List JsCall :=
  let toGate := JV3.sub g.pos pos
  let ahead := JV3.dot toGate fwd
  let g1 := if jsGtB ahead (JsNum.fin 0) then { g with wasAhead := true } else g
  if jsShouldRecycle pos fwd g then
    if g1.passed = false ∧ g1.wasAhead = true then
      let g2 := { g1 with flash := max (1 : ℚ) missFlashSeconds,
                          wasAhead := false, passed := true }
      let out := jsRespawnGate pos fwd ctx g2
      (out.1, out.2, [JsCall.penalty missPenalty, JsCall.breakCombo true])
    else
      let out := jsRespawnGate pos fwd ctx g1
      (out.1, out.2, [])
  else (g1, ctx, [])

/-- The centering bonus chain floor(80·clamp(1 − √s, 0, 1)) over JsNum, for
s = nx² + ny²: NaN propagates (√, −, clamp and floor all propagate it); an
infinite s drives the clamp to 0 and the bonus to 0; Math.sqrt of a negative
is NaN (unreachable: s is a sum of squared quotients); finite non-negative s
takes the exact value `centerScoreFloor`. -/
def jsCenterScore : JsNum → JsNum
  | JsNum.fin q => if q < 0 then JsNum.nan else JsNum.fin ((centerScoreFloor q : ℚ))
  | JsNum.nan => JsNum.nan
  | JsNum.inf s => if s then JsNum.fin 0 else JsNum.nan

/-- Pass 2 over JsNum, with the same squared-comparison embedding of the
normalised-coordinate guards as the ℚ `passCheck` (see the header): the two
forms agree on finite frames, and a NaN anywhere in a projection makes both
the source's |local| > bound comparison and the squared one false. -/
def jsPassCheck (pos : JV3) (speed : JsNum) (g : JGate) : JGate × List JsCall :=
  if g.passed then (g, [])
  else
    let d := JV3.sub pos g.pos
    let lx := JV3.dot d g.axisXraw
    let ly := JV3.dot d g.axisYraw
    let lz := JV3.dot d g.axisZraw
    let hSq := JV3.dot g.axisXraw g.axisXraw
    let ySq := JV3.dot g.axisYraw g.axisYraw
    let nSq := JV3.dot g.axisZraw g.axisZraw
    if jsGtB (jsMul lz lz) (jsMul (JsNum.fin ((triggerDepth * (1/2)) ^ 2)) nSq) then (g, [])
    else if jsGtB (jsMul lx lx) (jsMul (JsNum.fin ((gateW * (1/2)) ^ 2)) hSq) then (g, [])
    else if jsGtB (jsMul ly ly) (jsMul (JsNum.fin ((gateH * (1/2)) ^ 2)) ySq) then (g, [])
    else
      let g' := { g with passed := true, wasAhead := false, flash := (1 : ℚ) }
      let s := jsAdd (jsDiv (jsMul lx lx) (jsMul (JsNum.fin ((gateW * (1/2)) ^ 2)) hSq))
                     (jsDiv (jsMul ly ly) (jsMul (JsNum.fin ((gateH * (1/2)) ^ 2)) ySq))
      let centerScore := jsCenterScore s
      let t := jsMax (JsNum.fin 0) (jsMin (JsNum.fin 1) (jsDiv speed (JsNum.fin speedForMax)))
      let speedScore := jsFloorN (jsMul (JsNum.fin speedBonusMax) t)
      (g', [JsCall.cleared (JsNum.fin (basePoints : ℚ)) centerScore speedScore])

def jsPass1 (pos fwd : JV3) (ctx : Ctx) :
    List JGate → List JGate × Ctx × List JsCall
  | [] => ([], ctx, [])
  | g :: gs =>
    let r := jsRecycleStep pos fwd ctx g
    let rest := jsPass1 pos fwd r.2.1 gs
    (r.1 :: rest.1, rest.2.1, r.2.2 ++ rest.2.2)

def jsPass2 (pos : JV3) (speed : JsNum) :
    List JGate → List JGate × List JsCall
  | [] => ([], [])
  | g :: gs =>
    let r := jsPassCheck pos speed g
    let rest := jsPass2 pos speed gs
    (r.1 :: rest.1, r.2 ++ rest.2)

structure JGateCourse where
  gates : List JGate
  lastLane : ℤ
  sameLaneStreak : ℕ
  fallbackForward : JV3
deriving DecidableEq

/-- `GateCourse.update` over JsNum inputs. -/
def jsUpdate (dt : ℚ) (pos : JV3) (speed : JsNum) (fwd : JV3)
    (st : JGateCourse) (rng : List ℚ) : JGateCourse × List JsCall × List ℚ :=
  let _ := dt
  let p1 := jsPass1 pos fwd ⟨st.lastLane, st.sameLaneStreak, rng⟩ st.gates
  let p2 := jsPass2 pos speed p1.1
  (⟨p2.1, p1.2.1.lastLane, p1.2.1.streak, fwd⟩,
   p1.2.2 ++ p2.2, p1.2.1.rng)

/-! ## Shared lemmas -/

theorem rngOk_headD {r : List ℚ} (h : RngOk r) : 0 ≤ r.headD 0 ∧ r.headD 0 < 1 := by
  cases r with
  | nil => exact ⟨le_refl 0, by norm_num⟩
  | cons a t => exact h a (List.mem_cons_self a t)

theorem RngOk.mono {r r' : List ℚ} (hs : r'.IsSuffix r) (h : RngOk r) : RngOk r' :=
  fun q hq => h q (hs.subset hq)

theorem chooseLane_rng_suffix (lastLane : ℤ) (streak : ℕ) (rng : List ℚ) :
    (GateCourse.chooseLane lastLane streak rng).2.2.2.IsSuffix rng := by
  simp only [GateCourse.chooseLane]
  split_ifs <;> dsimp only <;>
    first
      | exact (List.tail_suffix _).trans (List.tail_suffix _)
      | exact ((List.tail_suffix _).trans (List.tail_suffix _)).trans (List.tail_suffix _)

theorem respawnGate_rng_suffix (pos fwd : V3) (ctx : Ctx) (g : Gate) :
    (GateCourse.respawnGate pos fwd ctx g).2.rng.IsSuffix ctx.rng := by
  simp only [GateCourse.respawnGate]
  exact (List.tail_suffix _).trans ((List.tail_suffix _).trans
    ((chooseLane_rng_suffix _ _ _).trans (List.tail_suffix _)))

theorem recycleStep_rng_suffix (pos fwd : V3) (ctx : Ctx) (g : Gate) :
    (GateCourse.recycleStep pos fwd ctx g).2.1.rng.IsSuffix ctx.rng := by
  simp only [GateCourse.recycleStep]
  split_ifs <;> dsimp only <;>
    first
      | exact respawnGate_rng_suffix _ _ _ _
      | exact List.suffix_refl _

theorem dot_self_nonneg (w : V3) : 0 ≤ V3.dot w w := by
  simp only [V3.dot]
  nlinarith [mul_self_nonneg w.x, mul_self_nonneg w.y, mul_self_nonneg w.z]

/-- A zero-length vector has all projections zero. -/
theorem dot_self_zero_proj {w : V3} (h : V3.dot w w = 0) (d : V3) : V3.dot d w = 0 := by
  simp only [V3.dot] at h ⊢
  have h1 : w.x * w.x = 0 :=
    le_antisymm (by linarith [mul_self_nonneg w.y, mul_self_nonneg w.z]) (mul_self_nonneg w.x)
  have h2 : w.y * w.y = 0 :=
    le_antisymm (by linarith [mul_self_nonneg w.x, mul_self_nonneg w.z]) (mul_self_nonneg w.y)
  have h3 : w.z * w.z = 0 :=
    le_antisymm (by linarith [mul_self_nonneg w.x, mul_self_nonneg w.y]) (mul_self_nonneg w.z)
  rw [mul_self_eq_zero.mp h1, mul_self_eq_zero.mp h2, mul_self_eq_zero.mp h3]
  ring

/-- The raw Y axis squared length is the product of the raw X and Z squared
lengths (z and up × z are orthogonal). -/
theorem gate_yraw_normSq (g : Gate) :
    V3.dot g.axisYraw g.axisYraw
      = V3.dot g.axisXraw g.axisXraw * V3.dot g.axisZraw g.axisZraw := by
  simp only [Gate.axisYraw, Gate.axisXraw, V3.dot, V3.cross]
  ring

/-- Orthogonal decomposition of a squared length along the raw lookAt frame:
after dividing by ‖Xraw‖², ‖Yraw‖² = ‖Xraw‖²·‖Zraw‖² and ‖Zraw‖² this is
‖d‖² = lx² + ly² + lz² for the normalised local coordinates. -/
theorem gate_frame_decomp (g : Gate) (d : V3) :
    V3.dot g.axisZraw g.axisZraw * V3.dot d g.axisXraw ^ 2
      + V3.dot d g.axisYraw ^ 2
      + V3.dot g.axisXraw g.axisXraw * V3.dot d g.axisZraw ^ 2
    = V3.dot g.axisXraw g.axisXraw * V3.dot g.axisZraw g.axisZraw * V3.dot d d := by
  simp only [Gate.axisYraw, Gate.axisXraw, V3.dot, V3.cross]
  ring

/-- Pass 2 leaves a gate alone whenever any containment guard trips. -/
theorem passCheck_skip (pos : V3) (speed : ℚ) (g : Gate)
    (h : (triggerDepth * (1/2)) ^ 2 * V3.dot g.axisZraw g.axisZraw
           < V3.dot (V3.sub pos g.pos) g.axisZraw ^ 2
       ∨ (gateW * (1/2)) ^ 2 * V3.dot g.axisXraw g.axisXraw
           < V3.dot (V3.sub pos g.pos) g.axisXraw ^ 2
       ∨ (gateH * (1/2)) ^ 2 * V3.dot g.axisYraw g.axisYraw
           < V3.dot (V3.sub pos g.pos) g.axisYraw ^ 2) :
    GateCourse.passCheck pos speed g = (g, []) := by
  simp only [GateCourse.passCheck]
  split_ifs with hp h1 h2 h3
  · rfl
  · rfl
  · rfl
  · rfl
  · rcases h with h | h | h
    · exact absurd h h1
    · exact absurd h h2
    · exact absurd h h3

/-- The raw look direction of a respawned gate has horizontal components
exactly 10·fwd (the lookAt target is spawn + 10·fwd, and spawn shares the
gate's x and z coordinates). -/
theorem respawn_axisZraw_xz (pos fwd : V3) (ctx : Ctx) (g : Gate) :
    (GateCourse.respawnGate pos fwd ctx g).1.axisZraw.x = 10 * fwd.x ∧
    (GateCourse.respawnGate pos fwd ctx g).1.axisZraw.z = 10 * fwd.z := by
  simp only [GateCourse.respawnGate, V3.add, V3.sub, V3.smul]
  constructor <;> ring

/-- For a horizontal unit forward, the respawned frame's raw X axis has
squared length 100. -/
theorem respawn_hSq (pos fwd : V3) (ctx : Ctx) (g : Gate) (hf : HorizUnit fwd) :
    V3.dot (GateCourse.respawnGate pos fwd ctx g).1.axisXraw
           (GateCourse.respawnGate pos fwd ctx g).1.axisXraw = 100 := by
  obtain ⟨hy, hu⟩ := hf
  simp only [GateCourse.respawnGate, Gate.axisXraw, V3.dot, V3.add, V3.sub, V3.smul]
  linear_combination (100 : ℚ) * hu

/-- The respawned raw look direction has squared length 100 plus the squared
altitude offset, hence at least 100. -/
theorem respawn_nSq (pos fwd : V3) (ctx : Ctx) (g : Gate) (hf : HorizUnit fwd) :
    100 ≤ V3.dot (GateCourse.respawnGate pos fwd ctx g).1.axisZraw
                 (GateCourse.respawnGate pos fwd ctx g).1.axisZraw := by
  obtain ⟨hy, hu⟩ := hf
  have he : V3.dot (GateCourse.respawnGate pos fwd ctx g).1.axisZraw
                   (GateCourse.respawnGate pos fwd ctx g).1.axisZraw
      = 100 + ((GateCourse.respawnGate pos fwd ctx g).1.axisZraw.y) ^ 2 := by
    simp only [GateCourse.respawnGate, V3.dot, V3.add, V3.sub, V3.smul]
    linear_combination (100 : ℚ) * hu
  rw [he]
  linarith [sq_nonneg ((GateCourse.respawnGate pos fwd ctx g).1.axisZraw.y)]

/-- The agent sits at squared distance d² + lateral² + (altitude offset)²
≥ spawnMin² = 4900 from a gate just respawned from its own position. -/
theorem respawn_dist (pos fwd : V3) (ctx : Ctx) (g : Gate) (hf : HorizUnit fwd)
    (hr : RngOk ctx.rng) :
    4900 ≤ V3.dot (V3.sub pos (GateCourse.respawnGate pos fwd ctx g).1.pos)
                  (V3.sub pos (GateCourse.respawnGate pos fwd ctx g).1.pos) := by
  obtain ⟨hy, hu⟩ := hf
  have h0 : 0 ≤ ctx.rng.headD 0 := (rngOk_headD hr).1
  have he : ∃ a b : ℚ,
      V3.dot (V3.sub pos (GateCourse.respawnGate pos fwd ctx g).1.pos)
             (V3.sub pos (GateCourse.respawnGate pos fwd ctx g).1.pos)
        = (spawnMin + ctx.rng.headD 0 * (spawnMax - spawnMin)) ^ 2 + a ^ 2 + b ^ 2 := by
    refine ⟨(((GateCourse.chooseLane ctx.lastLane ctx.streak ctx.rng.tail).1 : ℚ)) * lateralLane
        + (2 * (GateCourse.chooseLane ctx.lastLane ctx.streak ctx.rng.tail).2.2.2.headD 0 - 1)
          * (lateralLane * 0.18),
      pos.y - (GateCourse.respawnGate pos fwd ctx g).1.pos.y, ?_⟩
    simp only [GateCourse.respawnGate, V3.dot, V3.add, V3.sub, V3.smul]
    linear_combination ((spawnMin + ctx.rng.headD 0 * (spawnMax - spawnMin)) ^ 2
      + ((((GateCourse.chooseLane ctx.lastLane ctx.streak ctx.rng.tail).1 : ℚ)) * lateralLane
        + (2 * (GateCourse.chooseLane ctx.lastLane ctx.streak ctx.rng.tail).2.2.2.headD 0 - 1)
          * (lateralLane * 0.18)) ^ 2) * hu
  obtain ⟨a, b, he⟩ := he
  rw [he]
  have hdq : (70 : ℚ) ≤ spawnMin + ctx.rng.headD 0 * (spawnMax - spawnMin) := by
    unfold spawnMin spawnMax
    linarith
  nlinarith [hdq, sq_nonneg a, sq_nonneg b]

/-- A gate respawned from the agent's current position and forward direction
in pass 1 fails the containment test of pass 2 in the same tick: the agent is
at least 70 units from the gate, while the trigger box only reaches
√(5.25² + 3² + 1.6²) < 7 units in the gate's own (orthonormal) frame,
whatever its tilt. -/
theorem passCheck_respawn (pos fwd : V3) (ctx : Ctx) (g : Gate) (speed : ℚ)
    (hf : HorizUnit fwd) (hr : RngOk ctx.rng) :
    GateCourse.passCheck pos speed (GateCourse.respawnGate pos fwd ctx g).1
      = ((GateCourse.respawnGate pos fwd ctx g).1, []) := by
  apply passCheck_skip
  by_contra hcon
  push_neg at hcon
  obtain ⟨h1, h2, h3⟩ := hcon
  have hX := respawn_hSq pos fwd ctx g hf
  have hN := respawn_nSq pos fwd ctx g hf
  have hD := respawn_dist pos fwd ctx g hf hr
  have hY := gate_yraw_normSq (GateCourse.respawnGate pos fwd ctx g).1
  have hI := gate_frame_decomp (GateCourse.respawnGate pos fwd ctx g).1
    (V3.sub pos (GateCourse.respawnGate pos fwd ctx g).1.pos)
  rw [hX] at hY hI h2
  rw [hY] at h3
  have c1 : ((triggerDepth * (1/2) : ℚ)) ^ 2 = 2.56 := by norm_num [triggerDepth]
  have c2 : ((gateW * (1/2) : ℚ)) ^ 2 = 27.5625 := by norm_num [gateW]
  have c3 : ((gateH * (1/2) : ℚ)) ^ 2 = 9 := by norm_num [gateH]
  rw [c1] at h1
  rw [c2] at h2
  rw [c3] at h3
  have hn0 : (0 : ℚ) ≤ V3.dot (GateCourse.respawnGate pos fwd ctx g).1.axisZraw
      (GateCourse.respawnGate pos fwd ctx g).1.axisZraw := by linarith
  have k2 := mul_le_mul_of_nonneg_left h2 hn0
  have kD := mul_le_mul_of_nonneg_left hD hn0
  linarith [hI, h1, h3, k2, kD, hN]

/-- Position i of the pass-1 output is the recycle step of position i of the
input, under the context threaded through the earlier gates (whose pending
draws are a suffix of the original oracle). -/
theorem pass1_get (pos fwd : V3) :
    ∀ (gs : List Gate) (ctx : Ctx) (i : ℕ) (g : Gate),
    gs.get? i = some g →
    ∃ ctx' : Ctx, ctx'.rng.IsSuffix ctx.rng ∧
      (GateCourse.pass1 pos fwd ctx gs).1.get? i
        = some (GateCourse.recycleStep pos fwd ctx' g).1 := by
  intro gs
  induction gs with
  | nil => intro ctx i g h; simp at h
  | cons a gs ih =>
    intro ctx i g h
    cases i with
    | zero =>
      rw [List.get?_cons_zero, Option.some_inj] at h
      subst h
      exact ⟨ctx, List.suffix_refl _, by simp [GateCourse.pass1]⟩
    | succ n =>
      rw [List.get?_cons_succ] at h
      obtain ⟨ctx', hs, he⟩ := ih (GateCourse.recycleStep pos fwd ctx a).2.1 n g h
      exact ⟨ctx', hs.trans (recycleStep_rng_suffix pos fwd ctx a),
        by simp only [GateCourse.pass1, List.get?_cons_succ]; exact he⟩

/-- Position i of the pass-2 output is the pass check of position i of the
input. -/
theorem pass2_get (pos : V3) (speed : ℚ) :
    ∀ (gs : List Gate) (i : ℕ),
    (GateCourse.pass2 pos speed gs).1.get? i
      = (gs.get? i).map (fun g => (GateCourse.passCheck pos speed g).1) := by
  intro gs
  induction gs with
  | nil => intro i; simp [GateCourse.pass2]
  | cons a gs ih =>
    intro i
    cases i with
    | zero => simp [GateCourse.pass2]
    | succ n =>
      simp only [GateCourse.pass2, List.get?_cons_succ]
      exact ih n

/-- When the recycle condition holds, pass 1 ends in the respawn of the gate
(whatever the miss handling did to the flags before). -/
theorem recycleStep_of_recycle (pos fwd : V3) (ctx : Ctx) (g : Gate)
    (h : GateCourse.shouldRecycle pos fwd g = true) :
    ∃ gm : Gate, (GateCourse.recycleStep pos fwd ctx g).1
      = (GateCourse.respawnGate pos fwd ctx gm).1 := by
  simp only [GateCourse.recycleStep]
  split_ifs
  · exact ⟨_, rfl⟩
  · exact ⟨_, rfl⟩
  · exact ⟨_, rfl⟩
  · exact ⟨_, rfl⟩

/-- A freshly respawned gate starts unpassed. -/
theorem respawnGate_passed (pos fwd : V3) (ctx : Ctx) (g : Gate) :
    (GateCourse.respawnGate pos fwd ctx g).1.passed = false := rfl

/-! ## C1 -/

/-- C1: in a single GateCourse.update call, a gate respawned by the
recycle/miss pass is not marked passed and emits no cleared event in the
pass-detection pass of the same tick.  First conjunct: the pass-2 step is the
identity (no call) on any gate just respawned from the agent's position and
forward direction.  Second conjunct: in the full update, every pool slot that
satisfied the recycle condition ends the tick unpassed. -/
theorem C1_recycled_gate_not_repassed_same_tick
    (dt : ℚ) (pos : V3) (speed : ℚ) (fwd : V3) (st : GateCourse) (rng : List ℚ)
    (hf : HorizUnit fwd) (hr : RngOk rng) :
    (∀ (ctx : Ctx) (g : Gate), RngOk ctx.rng →
      GateCourse.passCheck pos speed (GateCourse.respawnGate pos fwd ctx g).1
        = ((GateCourse.respawnGate pos fwd ctx g).1, [])) ∧
    (∀ (i : ℕ) (g : Gate), st.gates.get? i = some g →
      GateCourse.shouldRecycle pos fwd g = true →
      ((GateCourse.update dt pos speed fwd st rng).1.gates.get? i).map Gate.passed
        = some false) := by
  constructor
  · intro ctx g hok
    exact passCheck_respawn pos fwd ctx g speed hf hok
  · intro i g hg hrec
    obtain ⟨ctx', hs, he⟩ :=
      pass1_get pos fwd st.gates ⟨st.lastLane, st.sameLaneStreak, rng⟩ i g hg
    have hok' : RngOk ctx'.rng := RngOk.mono hs hr
    obtain ⟨gm, hgm⟩ := recycleStep_of_recycle pos fwd ctx' g hrec
    show ((GateCourse.pass2 pos speed
      (GateCourse.pass1 pos fwd ⟨st.lastLane, st.sameLaneStreak, rng⟩ st.gates).1).1.get? i).map
        Gate.passed = some false
    rw [pass2_get, he, hgm]
    simp [passCheck_respawn pos fwd ctx' gm speed hf hok', respawnGate_passed]

/-- Witness for C1 at a concrete call: one gate 400 units ahead (past
farRecycle), forward (0,0,-1), a valid oracle. -/
theorem C1_witness :
    HorizUnit ⟨0, 0, -1⟩ ∧ RngOk [1/2, 1/2, 1/2, 1/2, 1/2] ∧
    (GateCourse.shouldRecycle ⟨0, 0, 0⟩ ⟨0, 0, -1⟩
        ⟨⟨0, 2.6, -400⟩, ⟨0, 0, 1⟩, false, false, 0, 0⟩ = true) ∧
    ((GateCourse.update 0.016 ⟨0, 0, 0⟩ 10 ⟨0, 0, -1⟩
        ⟨[⟨⟨0, 2.6, -400⟩, ⟨0, 0, 1⟩, false, false, 0, 0⟩], 0, 0, ⟨0, 0, -1⟩⟩
        [1/2, 1/2, 1/2, 1/2, 1/2]).1.gates.get? 0).map Gate.passed = some false := by
  have hf : HorizUnit ⟨0, 0, -1⟩ := ⟨rfl, by norm_num⟩
  have hr : RngOk [1/2, 1/2, 1/2, 1/2, 1/2] := by
    intro q hq
    simp at hq
    subst hq
    norm_num
  have hsr : GateCourse.shouldRecycle ⟨0, 0, 0⟩ ⟨0, 0, -1⟩
      ⟨⟨0, 2.6, -400⟩, ⟨0, 0, 1⟩, false, false, 0, 0⟩ = true := by
    simp [GateCourse.shouldRecycle, V3.dot, V3.sub, behindRecycle, farRecycle]
    norm_num
  refine ⟨hf, hr, hsr, ?_⟩
  exact (C1_recycled_gate_not_repassed_same_tick 0.016 ⟨0, 0, 0⟩ 10 ⟨0, 0, -1⟩
      ⟨[⟨⟨0, 2.6, -400⟩, ⟨0, 0, 1⟩, false, false, 0, 0⟩], 0, 0, ⟨0, 0, -1⟩⟩
      [1/2, 1/2, 1/2, 1/2, 1/2] hf hr).2 0
      ⟨⟨0, 2.6, -400⟩, ⟨0, 0, 1⟩, false, false, 0, 0⟩ rfl hsr

/-! ## C2 -/

/-- The per-tick inputs seen by one gate of the pool during an update call:
agent position, speed, derived forward vector, and the lane/oracle context at
the moment pass 1 reaches this gate (gates interact only through that
threaded context). -/
structure TickIn where
  pos : V3
  speed : ℚ
  fwd : V3
  ctx : Ctx

/-- The caller-contract facts about one tick's inputs: the derived forward is
a horizontal unit vector and the pending draws obey Math.random(). -/
def TickOk (t : TickIn) : Prop := HorizUnit t.fwd ∧ RngOk t.ctx.rng

/-- One update call as seen by one gate: its pass-1 recycle step followed by
its pass-2 pass check, with the calls both passes emit for it. -/
def gateTick (t : TickIn) (g : Gate) : Gate × List Call :=
  let r := GateCourse.recycleStep t.pos t.fwd t.ctx g
  let p := GateCourse.passCheck t.pos t.speed r.1
  (p.1, r.2.2 ++ p.2)

/-- The calls a gate emits over successive ticks, up to and including the
first tick whose recycle condition fires on it (the observation window of the
no-double-credit property: after that tick the gate has been respawned). -/
def traceUntilRecycle (g : Gate) : List TickIn → List Call
  | [] => []
  | t :: ts =>
    let r := gateTick t g
    if GateCourse.shouldRecycle t.pos t.fwd g then r.2
    else r.2 ++ traceUntilRecycle r.1 ts

/-- When the recycle condition fails, pass 1 only (possibly) sets the sticky
wasAhead flag: no call, no context change, passed untouched. -/
theorem recycleStep_not_recycled (pos fwd : V3) (ctx : Ctx) (g : Gate)
    (h : GateCourse.shouldRecycle pos fwd g = false) :
    (GateCourse.recycleStep pos fwd ctx g).2 = (ctx, []) ∧
    (GateCourse.recycleStep pos fwd ctx g).1.passed = g.passed := by
  simp only [GateCourse.recycleStep, h, Bool.false_eq_true, if_false]
  constructor
  · trivial
  · split_ifs <;> rfl

/-- Pass 1 never emits a call for a gate already marked passed (the miss
branch requires passed = false). -/
theorem recycleStep_calls_of_passed (pos fwd : V3) (ctx : Ctx) (g : Gate)
    (hp : g.passed = true) :
    (GateCourse.recycleStep pos fwd ctx g).2.2 = [] := by
  simp only [GateCourse.recycleStep]
  split_ifs <;> simp_all

/-- Pass 2 skips a gate already marked passed. -/
theorem passCheck_passed (pos : V3) (speed : ℚ) (g : Gate) (hp : g.passed = true) :
    GateCourse.passCheck pos speed g = (g, []) := by
  simp [GateCourse.passCheck, hp]

/-- A full per-gate tick on a passed gate emits no call at all, and leaves the
gate passed unless this very tick recycled (respawned) it. -/
theorem gateTick_passed (t : TickIn) (g : Gate) (hp : g.passed = true)
    (hf : HorizUnit t.fwd) (hr : RngOk t.ctx.rng) :
    (gateTick t g).2 = [] ∧
    (GateCourse.shouldRecycle t.pos t.fwd g = false → (gateTick t g).1.passed = true) := by
  simp only [gateTick]
  rcases hb : GateCourse.shouldRecycle t.pos t.fwd g with _ | _
  · obtain ⟨h2, h1⟩ := recycleStep_not_recycled t.pos t.fwd t.ctx g hb
    have hp1 : (GateCourse.recycleStep t.pos t.fwd t.ctx g).1.passed = true := h1.trans hp
    rw [passCheck_passed t.pos t.speed _ hp1]
    constructor
    · rw [show (GateCourse.recycleStep t.pos t.fwd t.ctx g).2.2 = [] from congrArg Prod.snd h2]
      rfl
    · intro _
      exact hp1
  · have hcs := recycleStep_calls_of_passed t.pos t.fwd t.ctx g hp
    obtain ⟨gm, hgm⟩ := recycleStep_of_recycle t.pos t.fwd t.ctx g hb
    rw [hgm, passCheck_respawn t.pos t.fwd t.ctx gm t.speed hf hr, hcs]
    exact ⟨rfl, fun hc => by simp [hb] at hc⟩

/-- C2: once a gate's passed flag is true, it emits no further cleared
(scoring) event on any later tick, up to and including the tick on which the
recycle path respawns it (which resets passed to false). -/
theorem C2_no_recredit_until_respawn (g : Gate) (ticks : List TickIn)
    (hp : g.passed = true) (hv : ∀ t ∈ ticks, TickOk t) :
    ∀ b c s, Call.cleared b c s ∉ traceUntilRecycle g ticks := by
  induction ticks generalizing g with
  | nil =>
    intro b c s h
    simp [traceUntilRecycle] at h
  | cons t ts ih =>
    intro b c s
    obtain ⟨hf, hr⟩ := hv t (List.mem_cons_self t ts)
    have hvts : ∀ u ∈ ts, TickOk u := fun u hu => hv u (List.mem_cons_of_mem t hu)
    obtain ⟨hcalls, hpass⟩ := gateTick_passed t g hp hf hr
    simp only [traceUntilRecycle]
    split_ifs with hsr
    · rw [hcalls]
      exact List.not_mem_nil _
    · rw [hcalls, List.nil_append]
      exact ih (gateTick t g).1 (hpass (by simpa using hsr)) hvts b c s

/-- Witness for C2: a passed gate observed over two concrete ticks (the
second recycles it) emits no cleared call. -/
theorem C2_witness :
    (Gate.passed ⟨⟨0, 2.6, -80⟩, ⟨0, 0, 1⟩, true, false, 0, 0⟩ = true) ∧
    TickOk ⟨⟨0, 0, -30⟩, 10, ⟨0, 0, -1⟩, ⟨0, 0, [1/2, 1/2, 1/2]⟩⟩ ∧
    TickOk ⟨⟨0, 0, -120⟩, 10, ⟨0, 0, -1⟩, ⟨0, 0, [1/2, 1/2, 1/2]⟩⟩ ∧
    Call.cleared 100 80 50 ∉ traceUntilRecycle
      ⟨⟨0, 2.6, -80⟩, ⟨0, 0, 1⟩, true, false, 0, 0⟩
      [⟨⟨0, 0, -30⟩, 10, ⟨0, 0, -1⟩, ⟨0, 0, [1/2, 1/2, 1/2]⟩⟩,
       ⟨⟨0, 0, -120⟩, 10, ⟨0, 0, -1⟩, ⟨0, 0, [1/2, 1/2, 1/2]⟩⟩] := by
  have hok : TickOk ⟨⟨0, 0, -30⟩, 10, ⟨0, 0, -1⟩, ⟨0, 0, [1/2, 1/2, 1/2]⟩⟩ := by
    refine ⟨⟨rfl, by norm_num⟩, ?_⟩
    intro q hq
    simp at hq
    subst hq
    norm_num
  have hok2 : TickOk ⟨⟨0, 0, -120⟩, 10, ⟨0, 0, -1⟩, ⟨0, 0, [1/2, 1/2, 1/2]⟩⟩ := by
    refine ⟨⟨rfl, by norm_num⟩, ?_⟩
    intro q hq
    simp at hq
    subst hq
    norm_num
  refine ⟨rfl, hok, hok2, ?_⟩
  apply C2_no_recredit_until_respawn _ _ rfl
  · intro t ht
    simp only [List.mem_cons, List.mem_singleton, List.not_mem_nil, or_false] at ht
    rcases ht with h | h <;> subst h <;> assumption

/-! ## C3 -/

/-- A JS array access `L[floor(r*L.length)]` (List.getD with default) yields
either the default or an element of the list. -/
theorem getD_default_or_mem (L : List ℤ) (n : ℕ) (d : ℤ) :
    L.getD n d = d ∨ L.getD n d ∈ L := by
  unfold List.getD
  cases h : L.get? n with
  | none => left; rfl
  | some x =>
    right
    simpa using List.get?_mem h

/-- chooseLane always yields a lane in {-1, 0, +1}, whatever the draws. -/
theorem chooseLane_fst_mem (lastLane : ℤ) (streak : ℕ) (rng : List ℚ) :
    (GateCourse.chooseLane lastLane streak rng).1 = -1 ∨
    (GateCourse.chooseLane lastLane streak rng).1 = 0 ∨
    (GateCourse.chooseLane lastLane streak rng).1 = 1 := by
  have hmem : ∀ v : ℤ, v ∈ ([-1, 0, 1] : List ℤ) → (v = -1 ∨ v = 0 ∨ v = 1) := by
    intro v hv
    simpa using hv
  simp only [GateCourse.chooseLane]
  split_ifs <;>
    rcases getD_default_or_mem _ _ 0 with h | h <;>
      first
        | (rw [h]; simp)
        | exact hmem _ ((List.mem_filter.mp h).1)
        | exact hmem _ h

/-- Under the miss condition, pass 1 ends in a respawn and the exact calls of
onGateMissed. -/
theorem recycleStep_miss_shape (pos fwd : V3) (ctx : Ctx) (g : Gate)
    (hp : g.passed = false) (hw : g.wasAhead = true)
    (hrec : GateCourse.shouldRecycle pos fwd g = true) :
    ∃ g2 : Gate, GateCourse.recycleStep pos fwd ctx g
      = ((GateCourse.respawnGate pos fwd ctx g2).1, (GateCourse.respawnGate pos fwd ctx g2).2,
         [Call.penalty missPenalty, Call.breakCombo true]) := by
  simp only [GateCourse.recycleStep]
  split_ifs <;> first | exact ⟨_, rfl⟩ | simp_all

/-- C3: a genuine miss (wasAhead, not passed, recycle condition met — the
ahead projection below −18 or the distance beyond 320) makes the engine call
exactly onPenalty(140) and breakCombo once each, in that order, and then
respawn the gate: flags reset, a fresh transform whose look direction is
re-aligned to the current forward in the horizontal plane (the lookAt frame
additionally tilts by the agent-altitude offset, which the raw direction's y
component carries), a fresh lane in {-1,0,+1}; and the respawned gate
produces no further call in pass 2 of the same tick. -/
theorem C3_miss_penalty_and_respawn (pos fwd : V3) (ctx : Ctx) (g : Gate) (speed : ℚ)
    (hf : HorizUnit fwd) (hr : RngOk ctx.rng)
    (hp : g.passed = false) (hw : g.wasAhead = true)
    (hrec : GateCourse.shouldRecycle pos fwd g = true) :
    (GateCourse.recycleStep pos fwd ctx g).2.2
      = [Call.penalty missPenalty, Call.breakCombo true] ∧
    (GateCourse.recycleStep pos fwd ctx g).1.passed = false ∧
    (GateCourse.recycleStep pos fwd ctx g).1.wasAhead = false ∧
    (GateCourse.recycleStep pos fwd ctx g).1.axisZraw.x = 10 * fwd.x ∧
    (GateCourse.recycleStep pos fwd ctx g).1.axisZraw.z = 10 * fwd.z ∧
    ((GateCourse.recycleStep pos fwd ctx g).1.lane = -1 ∨
     (GateCourse.recycleStep pos fwd ctx g).1.lane = 0 ∨
     (GateCourse.recycleStep pos fwd ctx g).1.lane = 1) ∧
    GateCourse.passCheck pos speed (GateCourse.recycleStep pos fwd ctx g).1
      = ((GateCourse.recycleStep pos fwd ctx g).1, []) := by
  obtain ⟨g2, hkey⟩ := recycleStep_miss_shape pos fwd ctx g hp hw hrec
  rw [hkey]
  refine ⟨rfl, rfl, rfl, ?_, ?_, ?_, ?_⟩
  · exact (respawn_axisZraw_xz pos fwd ctx g2).1
  · exact (respawn_axisZraw_xz pos fwd ctx g2).2
  · exact chooseLane_fst_mem ctx.lastLane ctx.streak ctx.rng.tail
  · exact passCheck_respawn pos fwd ctx g2 speed hf hr

/-- Witness for C3: a was-ahead, unpassed gate 25 units behind the agent
(ahead = −25 < −18). -/
theorem C3_witness :
    HorizUnit ⟨0, 0, -1⟩ ∧ RngOk [0, 0, 0] ∧
    (Gate.passed ⟨⟨0, 2.6, 25⟩, ⟨0, 0, 1⟩, false, true, 0, 0⟩ = false) ∧
    (Gate.wasAhead ⟨⟨0, 2.6, 25⟩, ⟨0, 0, 1⟩, false, true, 0, 0⟩ = true) ∧
    (GateCourse.shouldRecycle ⟨0, 0, 0⟩ ⟨0, 0, -1⟩
       ⟨⟨0, 2.6, 25⟩, ⟨0, 0, 1⟩, false, true, 0, 0⟩ = true) ∧
    (GateCourse.recycleStep ⟨0, 0, 0⟩ ⟨0, 0, -1⟩ ⟨0, 0, [0, 0, 0]⟩
       ⟨⟨0, 2.6, 25⟩, ⟨0, 0, 1⟩, false, true, 0, 0⟩).2.2
      = [Call.penalty missPenalty, Call.breakCombo true] := by
  have hf : HorizUnit ⟨0, 0, -1⟩ := ⟨rfl, by norm_num⟩
  have hr : RngOk [0, 0, 0] := by
    intro q hq
    simp at hq
    subst hq
    norm_num
  have hsr : GateCourse.shouldRecycle ⟨0, 0, 0⟩ ⟨0, 0, -1⟩
      ⟨⟨0, 2.6, 25⟩, ⟨0, 0, 1⟩, false, true, 0, 0⟩ = true := by
    simp [GateCourse.shouldRecycle, V3.dot, V3.sub, behindRecycle, farRecycle]
    norm_num
  exact ⟨hf, hr, rfl, rfl, hsr,
    (C3_miss_penalty_and_respawn ⟨0, 0, 0⟩ ⟨0, 0, -1⟩ ⟨0, 0, [0, 0, 0]⟩
      ⟨⟨0, 2.6, 25⟩, ⟨0, 0, 1⟩, false, true, 0, 0⟩ 10 hf hr rfl rfl hsr).1⟩

/-! ## ScoreSystem operation sequences (C5, C6, C8, C10) -/

/-- The ScoreSystem operations of the public contract. -/
inductive SOp where
  | update (dt : ℚ)
  | add (points : ℚ) (applyCombo : Bool)
  | gateCleared (base centerBonus speedBonus : ℚ)
  | penalty (points : ℚ)
  | crash (speed : ℚ)
  | breakC (flash : Bool)
deriving DecidableEq

def applySOp (st : ScoreSystem) : SOp → ScoreSystem
  | SOp.update dt => st.update dt
  | SOp.add p ac => st.add p ac
  | SOp.gateCleared b c s => st.onGateCleared b c s
  | SOp.penalty p => st.onPenalty p
  | SOp.crash sp => st.onCrash sp
  | SOp.breakC f => st.breakCombo f

def applySOps (st : ScoreSystem) (ops : List SOp) : ScoreSystem :=
  ops.foldl applySOp st

/-- The caller contract on an operation: update receives a non-negative dt. -/
def SOpOk : SOp → Prop
  | SOp.update dt => 0 ≤ dt
  | _ => True

instance (op : SOp) : Decidable (SOpOk op) := by
  cases op <;> simp only [SOpOk] <;> infer_instance

theorem applySOps_cons (st : ScoreSystem) (op : SOp) (ops : List SOp) :
    applySOps st (op :: ops) = applySOps (applySOp st op) ops := rfl

theorem add_combo (st : ScoreSystem) (p : ℚ) (ac : Bool) :
    (st.add p ac).combo = st.combo := rfl

theorem add_comboLock (st : ScoreSystem) (p : ℚ) (ac : Bool) :
    (st.add p ac).comboLock = st.comboLock := rfl

/-- The combo after onGateCleared: grown and clamped when unlocked, untouched
when locked (the adds never modify combo or comboLock). -/
theorem onGateCleared_combo (st : ScoreSystem) (b c s : ℚ) :
    (st.onGateCleared b c s).combo
      = if st.comboLock ≤ 0 then clampQ (st.combo + 0.12) 1 3 else st.combo := by
  simp only [ScoreSystem.onGateCleared, ScoreSystem.add]
  by_cases hc : 0 < c <;> by_cases hs : 0 < s <;> simp [hc, hs] <;>
    split_ifs <;> rfl

/-- onGateCleared never writes comboLock. -/
theorem onGateCleared_comboLock (st : ScoreSystem) (b c s : ℚ) :
    (st.onGateCleared b c s).comboLock = st.comboLock := by
  simp only [ScoreSystem.onGateCleared, ScoreSystem.add]
  by_cases hc : 0 < c <;> by_cases hs : 0 < s <;> simp [hc, hs] <;>
    split_ifs <;> rfl

/-- One operation keeps the combo inside [1, 3]. -/
theorem combo_bounds_step (st : ScoreSystem) (op : SOp)
    (h1 : 1 ≤ st.combo) (h3 : st.combo ≤ 3) (hok : SOpOk op) :
    1 ≤ (applySOp st op).combo ∧ (applySOp st op).combo ≤ 3 := by
  cases op with
  | update dt =>
    simp only [SOpOk] at hok
    simp only [applySOp, ScoreSystem.update]
    split_ifs with htss hstreak
    · refine ⟨le_max_left 1 _, max_le (by norm_num) ?_⟩
      have h0 : 0 ≤ 0.18 * dt := mul_nonneg (by norm_num) hok
      linarith
    · refine ⟨le_max_left 1 _, max_le (by norm_num) ?_⟩
      have h0 : 0 ≤ 0.18 * dt := mul_nonneg (by norm_num) hok
      linarith
    · exact ⟨h1, h3⟩
  | add p ac => exact ⟨h1, h3⟩
  | gateCleared b c s =>
    have h := onGateCleared_combo st b c s
    simp only [applySOp]
    rw [h]
    split_ifs
    · exact ⟨le_max_left 1 _, max_le (by norm_num) (min_le_left 3 _)⟩
    · exact ⟨h1, h3⟩
  | penalty p =>
    exact ⟨le_refl 1, by show (1 : ℚ) ≤ 3; norm_num⟩
  | crash sp =>
    exact ⟨le_refl 1, by show (1 : ℚ) ≤ 3; norm_num⟩
  | breakC f =>
    exact ⟨le_refl 1, by show (1 : ℚ) ≤ 3; norm_num⟩

theorem combo_bounds_fold :
    ∀ (ops : List SOp) (st : ScoreSystem), (∀ op ∈ ops, SOpOk op) →
    1 ≤ st.combo → st.combo ≤ 3 →
    1 ≤ (applySOps st ops).combo ∧ (applySOps st ops).combo ≤ 3 := by
  intro ops
  induction ops with
  | nil => intro st _ h1 h3; exact ⟨h1, h3⟩
  | cons op ops ih =>
    intro st hok h1 h3
    rw [applySOps_cons]
    obtain ⟨g1, g3⟩ := combo_bounds_step st op h1 h3 (hok op (List.mem_cons_self op ops))
    exact ih (applySOp st op) (fun u hu => hok u (List.mem_cons_of_mem op hu)) g1 g3

/-! ## C5 -/

/-- C5: along every operation sequence from the initial state (with
non-negative update timesteps), the combo stays within [1, 3] — and since
every prefix of such a sequence is itself such a sequence, the bound holds
after each operation. -/
theorem C5_combo_bounds (ops : List SOp) (hok : ∀ op ∈ ops, SOpOk op) :
    1 ≤ (applySOps ScoreSystem.init ops).combo ∧
    (applySOps ScoreSystem.init ops).combo ≤ 3 :=
  combo_bounds_fold ops ScoreSystem.init hok (le_refl 1) (by norm_num [ScoreSystem.init])

/-- Witness for C5: a concrete mixed sequence. -/
theorem C5_witness :
    (∀ op ∈ [SOp.crash 10, SOp.update 1, SOp.gateCleared 100 80 50,
             SOp.penalty 140, SOp.update 2, SOp.add (-1000) false], SOpOk op) ∧
    (1 ≤ (applySOps ScoreSystem.init
        [SOp.crash 10, SOp.update 1, SOp.gateCleared 100 80 50,
         SOp.penalty 140, SOp.update 2, SOp.add (-1000) false]).combo ∧
     (applySOps ScoreSystem.init
        [SOp.crash 10, SOp.update 1, SOp.gateCleared 100 80 50,
         SOp.penalty 140, SOp.update 2, SOp.add (-1000) false]).combo ≤ 3) := by
  have hok : ∀ op ∈ [SOp.crash 10, SOp.update 1, SOp.gateCleared 100 80 50,
      SOp.penalty 140, SOp.update 2, SOp.add (-1000) false], SOpOk op := by
    intro op hop
    simp only [List.mem_cons, List.not_mem_nil, or_false] at hop
    rcases hop with h | h | h | h | h | h <;> subst h <;> simp [SOpOk]
  exact ⟨hok, C5_combo_bounds _ hok⟩

/-! ## C6 -/

/-- C6: after any add call — any point value of any sign and magnitude, with
or without the combo multiplier, from any state — the score is non-negative
(it is clamped with max(0, ·)). -/
theorem C6_score_nonneg_after_add (st : ScoreSystem) (p : ℚ) (ac : Bool) :
    0 ≤ (st.add p ac).score :=
  le_max_left 0 _

/-! ## C10 -/

/-- The signed integer delta `add` computes before clamping: Math.trunc of the
points, then — when the combo applies — Math.trunc again after the combo
multiplication (the `applied` local of the source). -/
def ScoreSystem.appliedDelta (st : ScoreSystem) (points : ℚ) (applyCombo : Bool) : ℤ :=
  let raw := jsTrunc points
  if applyCombo then jsTrunc ((raw : ℚ) * st.combo) else raw

/-- `add` in terms of the pre-clamp delta. -/
theorem add_eq_appliedDelta (st : ScoreSystem) (p : ℚ) (ac : Bool) :
    st.add p ac = { st with score := max 0 (st.score + st.appliedDelta p ac),
                            lastAdd := st.appliedDelta p ac,
                            timeSinceScore :=
                              if st.appliedDelta p ac ≠ 0 then 0
                              else st.timeSinceScore } := rfl

/-- C10: when add is given a delta that is negative and larger in magnitude
than the current score, the score clamps to 0, but lastAdd — reported as-is by
getSnapshot — records the full pre-clamp delta, not the actual score change,
and timeSinceScore resets to 0 because the pre-clamp delta is nonzero, even
when the score was already 0 and did not change at all. -/
theorem C10_lastAdd_preclamp (st : ScoreSystem) (p : ℚ) (ac : Bool)
    (ha : st.appliedDelta p ac < 0)
    (hb : st.score + st.appliedDelta p ac ≤ 0) :
    (st.add p ac).score = 0 ∧
    (st.add p ac).lastAdd = st.appliedDelta p ac ∧
    ((st.add p ac).getSnapshot).lastAdd = st.appliedDelta p ac ∧
    (st.add p ac).timeSinceScore = 0 := by
  rw [add_eq_appliedDelta]
  refine ⟨?_, rfl, rfl, ?_⟩
  · exact max_eq_left hb
  · exact if_pos (ne_of_lt ha)

/-- Witness for C10: score 50, penalty −200, no multiplier — and again from a
zero score, where the actual change is 0 but timeSinceScore still resets. -/
theorem C10_witness :
    (ScoreSystem.appliedDelta ⟨50, 1, 0, 0, 0, 0, 0, 999, 0⟩ (-200) false < 0) ∧
    ((50 : ℤ) + ScoreSystem.appliedDelta ⟨50, 1, 0, 0, 0, 0, 0, 999, 0⟩ (-200) false ≤ 0) ∧
    ((ScoreSystem.add ⟨50, 1, 0, 0, 0, 0, 0, 999, 0⟩ (-200) false).score = 0 ∧
     (ScoreSystem.add ⟨50, 1, 0, 0, 0, 0, 0, 999, 0⟩ (-200) false).lastAdd
       = ScoreSystem.appliedDelta ⟨50, 1, 0, 0, 0, 0, 0, 999, 0⟩ (-200) false ∧
     ((ScoreSystem.add ⟨50, 1, 0, 0, 0, 0, 0, 999, 0⟩ (-200) false).getSnapshot).lastAdd
       = ScoreSystem.appliedDelta ⟨50, 1, 0, 0, 0, 0, 0, 999, 0⟩ (-200) false ∧
     (ScoreSystem.add ⟨50, 1, 0, 0, 0, 0, 0, 999, 0⟩ (-200) false).timeSinceScore = 0) := by
  have hceil : (⌈(-200 : ℚ)⌉ : ℤ) = -200 := by
    rw [show ((-200 : ℚ)) = ((-200 : ℤ) : ℚ) by norm_num, Int.ceil_intCast]
  have ha : ScoreSystem.appliedDelta ⟨50, 1, 0, 0, 0, 0, 0, 999, 0⟩ (-200) false < 0 := by
    norm_num [ScoreSystem.appliedDelta, jsTrunc, hceil]
  have hb : (50 : ℤ) + ScoreSystem.appliedDelta ⟨50, 1, 0, 0, 0, 0, 0, 999, 0⟩ (-200) false ≤ 0 := by
    norm_num [ScoreSystem.appliedDelta, jsTrunc, hceil]
  exact ⟨ha, hb, C10_lastAdd_preclamp ⟨50, 1, 0, 0, 0, 0, 0, 999, 0⟩ (-200) false ha hb⟩

/-! ## C8 -/

theorem jsTrunc_nonneg {q : ℚ} (h : 0 ≤ q) : 0 ≤ jsTrunc q := by
  unfold jsTrunc
  rw [if_pos h]
  exact Int.floor_nonneg.mpr h

/-- The combo-scaled truncated delta of a non-negative point value is
non-negative. -/
theorem applied_nonneg (st : ScoreSystem) (p : ℚ) (hp : 0 ≤ p) (hcb : 0 ≤ st.combo) :
    0 ≤ jsTrunc ((jsTrunc p : ℚ) * st.combo) :=
  jsTrunc_nonneg (mul_nonneg (by exact_mod_cast jsTrunc_nonneg hp) hcb)

theorem chain1 (x t1 : ℤ) (h1 : 0 ≤ t1) : x ≤ max 0 (x + t1) :=
  le_max_of_le_right (le_add_of_nonneg_right h1)

theorem chain2 (x t1 t2 : ℤ) (h1 : 0 ≤ t1) (h2 : 0 ≤ t2) :
    x ≤ max 0 (max 0 (x + t1) + t2) :=
  (chain1 x t1 h1).trans (chain1 _ t2 h2)

theorem chain3 (x t1 t2 t3 : ℤ) (h1 : 0 ≤ t1) (h2 : 0 ≤ t2) (h3 : 0 ≤ t3) :
    x ≤ max 0 (max 0 (max 0 (x + t1) + t2) + t3) :=
  (chain2 x t1 t2 h1 h2).trans (chain1 _ t3 h3)

theorem add_score_mono (st : ScoreSystem) (p : ℚ) (ac : Bool)
    (hp : 0 ≤ p) (hcb : 0 ≤ st.combo) : st.score ≤ (st.add p ac).score := by
  cases ac with
  | true => exact chain1 st.score _ (applied_nonneg st p hp hcb)
  | false => exact chain1 st.score _ (jsTrunc_nonneg hp)

/-- The score after onGateCleared is the score after the base add and the two
guarded bonus adds (streak, combo and lock bookkeeping do not touch it). -/
theorem onGateCleared_score (st : ScoreSystem) (b c s : ℚ) :
    (st.onGateCleared b c s).score =
      (let st2 := ({ st with gatesPassed := st.gatesPassed + 1 } : ScoreSystem).add b true
       let st3 := if 0 < c then st2.add c true else st2
       let st4 := if 0 < s then st3.add s true else st3
       st4.score) := by
  simp only [ScoreSystem.onGateCleared]
  split_ifs <;> rfl

/-- With non-negative inputs and a non-negative combo, a gate clear never
lowers the score. -/
theorem onGateCleared_score_ge (st : ScoreSystem) (b c s : ℚ)
    (hb : 0 ≤ b) (hc : 0 ≤ c) (hs : 0 ≤ s) (hcb : 0 ≤ st.combo) :
    st.score ≤ (st.onGateCleared b c s).score := by
  rw [onGateCleared_score]
  dsimp only
  have h2 : st.score ≤ (({ st with gatesPassed := st.gatesPassed + 1 } : ScoreSystem).add b true).score :=
    add_score_mono _ b true hb hcb
  set A := ({ st with gatesPassed := st.gatesPassed + 1 } : ScoreSystem).add b true with hA
  split_ifs
  · exact h2.trans ((add_score_mono A c true hc hcb).trans
      (add_score_mono (A.add c true) s true hs hcb))
  · exact h2.trans (add_score_mono A s true hs hcb)
  · exact h2.trans (add_score_mono A c true hc hcb)
  · exact h2

theorem update_comboLock (st : ScoreSystem) (dt : ℚ) :
    (st.update dt).comboLock = max 0 (st.comboLock - dt) := by
  simp only [ScoreSystem.update]
  split_ifs <;> rfl

theorem update_score (st : ScoreSystem) (dt : ℚ) :
    (st.update dt).score = st.score := by
  simp only [ScoreSystem.update]
  split_ifs <;> rfl

/-- A broken (= 1.0) combo cannot decay below 1. -/
theorem update_combo_of_one (st : ScoreSystem) (dt : ℚ) (hc : st.combo = 1)
    (hdt : 0 ≤ dt) : (st.update dt).combo = 1 := by
  simp only [ScoreSystem.update]
  split_ifs with h1 h2
  · exact h2
  · rw [hc]
    refine max_eq_left ?_
    have h0 : 0 ≤ 0.18 * dt := mul_nonneg (by norm_num) hdt
    linarith
  · exact hc

/-- The operations the combo-lock scenario allows between the crash and the
clear: per-tick updates with non-negative dt and gate clears with
non-negative point values. -/
def WindowOp : SOp → Prop
  | SOp.update dt => 0 ≤ dt
  | SOp.gateCleared b c s => 0 ≤ b ∧ 0 ≤ c ∧ 0 ≤ s
  | _ => False

/-- Total simulated time advanced by the update operations of a sequence. -/
def sumDt : List SOp → ℚ
  | [] => 0
  | SOp.update dt :: ops => dt + sumDt ops
  | _ :: ops => sumDt ops

theorem sumDt_nonneg : ∀ ops : List SOp, (∀ op ∈ ops, WindowOp op) → 0 ≤ sumDt ops := by
  intro ops
  induction ops with
  | nil => intro _; exact le_refl 0
  | cons op ops ih =>
    intro hw
    have h1 := hw op (List.mem_cons_self op ops)
    have h2 := ih (fun u hu => hw u (List.mem_cons_of_mem op hu))
    cases op with
    | update dt =>
      have : sumDt (SOp.update dt :: ops) = dt + sumDt ops := rfl
      rw [this]
      have hdt : 0 ≤ dt := h1
      linarith
    | gateCleared b c s => exact h2
    | add p ac => exact absurd h1 (by simp [WindowOp])
    | penalty p => exact absurd h1 (by simp [WindowOp])
    | crash sp => exact absurd h1 (by simp [WindowOp])
    | breakC f => exact absurd h1 (by simp [WindowOp])

/-- While the accumulated dt stays below the remaining combo lock, the combo
stays at 1 and the score never drops. -/
theorem lock_window_aux :
    ∀ (ops : List SOp) (st : ScoreSystem),
    (∀ op ∈ ops, WindowOp op) → st.combo = 1 → sumDt ops < st.comboLock →
    (applySOps st ops).combo = 1 ∧ st.score ≤ (applySOps st ops).score := by
  intro ops
  induction ops with
  | nil => intro st _ hc _; exact ⟨hc, le_refl _⟩
  | cons op ops ih =>
    intro st hw hc hs
    have hwop := hw op (List.mem_cons_self op ops)
    have hwops : ∀ u ∈ ops, WindowOp u := fun u hu => hw u (List.mem_cons_of_mem op hu)
    rw [applySOps_cons]
    cases op with
    | update dt =>
      have hdt : 0 ≤ dt := hwop
      have hsum : sumDt (SOp.update dt :: ops) = dt + sumDt ops := rfl
      rw [hsum] at hs
      have hcombo' : (applySOp st (SOp.update dt)).combo = 1 := update_combo_of_one st dt hc hdt
      have hlock' : sumDt ops < (applySOp st (SOp.update dt)).comboLock := by
        show sumDt ops < (st.update dt).comboLock
        rw [update_comboLock]
        exact lt_of_lt_of_le (by linarith) (le_max_right 0 (st.comboLock - dt))
      obtain ⟨hcf, hsf⟩ := ih _ hwops hcombo' hlock'
      refine ⟨hcf, le_trans (le_of_eq ?_) hsf⟩
      exact (update_score st dt).symm
    | gateCleared b c s =>
      obtain ⟨hb, hc', hs'⟩ := hwop
      have hlockpos : 0 < st.comboLock :=
        lt_of_le_of_lt (sumDt_nonneg ops hwops) hs
      have hcombo' : (applySOp st (SOp.gateCleared b c s)).combo = 1 := by
        show (st.onGateCleared b c s).combo = 1
        rw [onGateCleared_combo, if_neg (not_le.mpr hlockpos)]
        exact hc
      have hlock' : sumDt ops < (applySOp st (SOp.gateCleared b c s)).comboLock := by
        show sumDt ops < (st.onGateCleared b c s).comboLock
        rw [onGateCleared_comboLock]
        exact hs
      have hscore : st.score ≤ (st.onGateCleared b c s).score :=
        onGateCleared_score_ge st b c s hb hc' hs' (by rw [hc]; norm_num)
      obtain ⟨hcf, hsf⟩ := ih _ hwops hcombo' hlock'
      exact ⟨hcf, le_trans hscore hsf⟩
    | add p ac => exact absurd hwop (by simp [WindowOp])
    | penalty p => exact absurd hwop (by simp [WindowOp])
    | crash sp => exact absurd hwop (by simp [WindowOp])
    | breakC f => exact absurd hwop (by simp [WindowOp])

/-- C8: after onCrash, any sequence of per-tick updates and gate clears whose
accumulated dt stays below the 0.55 s lock leaves the combo exactly at its
value at crash time (1.0, since the crash broke it) while the clears still
apply their point additions (the score never decreases; the witness shows a
concrete clear during the lock adding its full points). -/
theorem C8_combo_lock_effective (st : ScoreSystem) (speed : ℚ) (ops : List SOp)
    (hw : ∀ op ∈ ops, WindowOp op) (hs : sumDt ops < 0.55) :
    (st.onCrash speed).combo = 1 ∧
    (applySOps (st.onCrash speed) ops).combo = (st.onCrash speed).combo ∧
    (st.onCrash speed).score ≤ (applySOps (st.onCrash speed) ops).score := by
  have h1 : (st.onCrash speed).combo = 1 := rfl
  have h2 : (st.onCrash speed).comboLock = 0.55 := rfl
  obtain ⟨ha, hb⟩ := lock_window_aux ops (st.onCrash speed) hw h1 (by rw [h2]; exact hs)
  exact ⟨h1, ha.trans h1.symm, hb⟩

/-- Witness for C8: crash at speed 10, then 0.3 s of updates and a clear
inside the lock window. -/
theorem C8_witness :
    (∀ op ∈ [SOp.update 0.3, SOp.gateCleared 100 80 50], WindowOp op) ∧
    sumDt [SOp.update 0.3, SOp.gateCleared 100 80 50] < 0.55 ∧
    ((ScoreSystem.onCrash ScoreSystem.init 10).combo = 1 ∧
     (applySOps (ScoreSystem.onCrash ScoreSystem.init 10)
        [SOp.update 0.3, SOp.gateCleared 100 80 50]).combo
       = (ScoreSystem.onCrash ScoreSystem.init 10).combo ∧
     (ScoreSystem.onCrash ScoreSystem.init 10).score
       ≤ (applySOps (ScoreSystem.onCrash ScoreSystem.init 10)
            [SOp.update 0.3, SOp.gateCleared 100 80 50]).score) := by
  have hw : ∀ op ∈ [SOp.update 0.3, SOp.gateCleared 100 80 50], WindowOp op := by
    intro op hop
    simp only [List.mem_cons, List.not_mem_nil, or_false] at hop
    rcases hop with h | h <;> subst h <;> norm_num [WindowOp]
  have hs : sumDt [SOp.update 0.3, SOp.gateCleared 100 80 50] < 0.55 := by
    show (0.3 : ℚ) + sumDt [SOp.gateCleared 100 80 50] < 0.55
    show (0.3 : ℚ) + sumDt [] < 0.55
    norm_num [sumDt]
  exact ⟨hw, hs, C8_combo_lock_effective ScoreSystem.init 10
    [SOp.update 0.3, SOp.gateCleared 100 80 50] hw hs⟩

/-! ## C9 -/

theorem jsTrunc_intCast (n : ℤ) : jsTrunc ((n : ℤ) : ℚ) = n := by
  unfold jsTrunc
  split_ifs
  · exact Int.floor_intCast n
  · exact Int.ceil_intCast n

/-- The centering bonus at a dead-center pass: 80 (every j in [0,80]
satisfies 6400·0 ≤ (80 − j)²). -/
theorem centerScoreFloor_zero : centerScoreFloor 0 = 80 := by
  unfold centerScoreFloor
  rw [if_neg (by norm_num)]
  rw [List.filter_eq_self.mpr ?_]
  · rw [List.length_range]
    norm_num
  · intro j _
    rw [decide_eq_true_eq]
    have : (0 : ℚ) ≤ (((80 : ℤ) - (j : ℤ) : ℤ) : ℚ) ^ 2 := sq_nonneg _
    linarith

/-- Evaluation of a combo-multiplied add on a non-negative score with
non-negative points: no clamping happens. -/
theorem add_score_pos_eval (st : ScoreSystem) (p : ℚ)
    (hs : 0 ≤ st.score) (hp : 0 ≤ p) (hcb : 0 ≤ st.combo) :
    (st.add p true).score = st.score + jsTrunc ((jsTrunc p : ℚ) * st.combo) ∧
    0 ≤ (st.add p true).score := by
  have ht : 0 ≤ jsTrunc ((jsTrunc p : ℚ) * st.combo) := applied_nonneg st p hp hcb
  have he : (st.add p true).score = max 0 (st.score + jsTrunc ((jsTrunc p : ℚ) * st.combo)) := rfl
  rw [he]
  exact ⟨max_eq_right (by linarith), le_max_left 0 _⟩

/-- A vanishing normalised projection over ℝ forces the raw ℚ projection to
vanish (a degenerate zero axis has an identically zero raw projection). -/
theorem normProj_zero {d w : V3}
    (h : (V3.dot d w : ℝ) / Real.sqrt ((V3.dot w w : ℚ) : ℝ) = 0) :
    V3.dot d w = 0 := by
  rcases eq_or_lt_of_le (dot_self_nonneg w) with he | hlt
  · exact dot_self_zero_proj he.symm d
  · have hs : 0 < Real.sqrt ((V3.dot w w : ℚ) : ℝ) :=
      Real.sqrt_pos.mpr (by exact_mod_cast hlt)
    rcases div_eq_zero_iff.mp h with h0 | h0
    · exact_mod_cast h0
    · exact absurd h0 (ne_of_gt hs)

/-- |raw/√‖w‖²| ≤ b over ℝ gives the squared rational comparison
raw² ≤ b²·‖w‖² (again including the degenerate zero axis). -/
theorem normProj_le {d w : V3} {b : ℚ}
    (h : |(V3.dot d w : ℝ) / Real.sqrt ((V3.dot w w : ℚ) : ℝ)| ≤ ((b : ℚ) : ℝ)) :
    V3.dot d w ^ 2 ≤ b ^ 2 * V3.dot w w := by
  rcases eq_or_lt_of_le (dot_self_nonneg w) with he | hlt
  · rw [dot_self_zero_proj he.symm d, ← he]
    norm_num
  · have hnR : (0 : ℝ) < ((V3.dot w w : ℚ) : ℝ) := by exact_mod_cast hlt
    have h2 : ((V3.dot d w : ℝ) / Real.sqrt ((V3.dot w w : ℚ) : ℝ)) ^ 2 ≤ ((b : ℚ) : ℝ) ^ 2 :=
      sq_le_sq' (neg_le_of_abs_le h) (le_of_abs_le h)
    rw [div_pow, Real.sq_sqrt (le_of_lt hnR), div_le_iff₀ hnR] at h2
    have hc : ((V3.dot d w ^ 2 : ℚ) : ℝ) ≤ ((b ^ 2 * V3.dot w w : ℚ) : ℝ) := by
      push_cast
      linarith
    exact_mod_cast hc

/-- C9: an agent exactly on the gate axis (local x = 0, local y = 0) inside
the trigger depth, at speed 18 = SPEED_FOR_MAX, is detected as a pass and
scores centering = 80, speed = 50, base = 100 (raw total 230); ScoreSystem
then applies each of the three components scaled by the current combo. -/
theorem C9_center_pass_scores (g : Gate) (pos : V3)
    (hp : g.passed = false)
    (hx : (g.worldToLocal pos).x = 0) (hy : (g.worldToLocal pos).y = 0)
    (hz : |(g.worldToLocal pos).z| ≤ (triggerDepth : ℝ) * (1/2)) :
    GateCourse.passCheck pos speedForMax g
      = ({ g with passed := true, wasAhead := false, flash := (1 : ℚ) },
         [Call.cleared 100 80 50]) ∧
    (∀ st : ScoreSystem, 0 ≤ st.score → 1 ≤ st.combo →
      (applyCalls st [Call.cleared 100 80 50]).score
        = st.score + jsTrunc (100 * st.combo) + jsTrunc (80 * st.combo)
          + jsTrunc (50 * st.combo)) ∧
    (100 : ℤ) + 80 + 50 = 230 := by
  refine ⟨?_, ?_, by norm_num⟩
  · have hlx : V3.dot (V3.sub pos g.pos) g.axisXraw = 0 := by
      apply normProj_zero
      simpa only [Gate.worldToLocal] using hx
    have hly : V3.dot (V3.sub pos g.pos) g.axisYraw = 0 := by
      apply normProj_zero
      simpa only [Gate.worldToLocal] using hy
    have hlz2 : V3.dot (V3.sub pos g.pos) g.axisZraw ^ 2
        ≤ (triggerDepth * (1/2)) ^ 2 * V3.dot g.axisZraw g.axisZraw := by
      apply normProj_le
      have hcast : (((triggerDepth * (1/2) : ℚ)) : ℝ) = (triggerDepth : ℝ) * (1/2) := by
        push_cast
        ring
      rw [hcast]
      simpa only [Gate.worldToLocal] using hz
    simp only [GateCourse.passCheck]
    rw [if_neg (by simp [hp])]
    rw [hlx, hly]
    rw [if_neg (not_lt.mpr hlz2)]
    rw [if_neg (not_lt.mpr (by
      have := mul_nonneg (sq_nonneg ((gateW * (1/2) : ℚ))) (dot_self_nonneg g.axisXraw)
      simpa using this))]
    rw [if_neg (not_lt.mpr (by
      have := mul_nonneg (sq_nonneg ((gateH * (1/2) : ℚ))) (dot_self_nonneg g.axisYraw)
      simpa using this))]
    have hcs : centerScoreFloor ((0 : ℚ) ^ 2 / ((gateW * (1/2)) ^ 2 * V3.dot g.axisXraw g.axisXraw)
        + (0 : ℚ) ^ 2 / ((gateH * (1/2)) ^ 2 * V3.dot g.axisYraw g.axisYraw)) = 80 := by
      rw [show ((0 : ℚ) ^ 2 / ((gateW * (1/2)) ^ 2 * V3.dot g.axisXraw g.axisXraw)
          + (0 : ℚ) ^ 2 / ((gateH * (1/2)) ^ 2 * V3.dot g.axisYraw g.axisYraw)) = 0 by
        simp]
      exact centerScoreFloor_zero
    rw [hcs]
    have hsp : (⌊speedBonusMax * clampQ (speedForMax / speedForMax) 0 1⌋ : ℤ) = 50 := by
      rw [show speedBonusMax * clampQ (speedForMax / speedForMax) 0 1 = ((50 : ℤ) : ℚ) by
        norm_num [speedBonusMax, speedForMax, clampQ]]
      exact Int.floor_intCast 50
    rw [hsp]
    rfl
  · intro st h0 h1
    have hcb : (0 : ℚ) ≤ st.combo := le_trans (by norm_num) h1
    have e1 : applyCalls st [Call.cleared 100 80 50]
        = st.onGateCleared ((100 : ℤ) : ℚ) ((80 : ℤ) : ℚ) ((50 : ℤ) : ℚ) := rfl
    rw [e1, onGateCleared_score]
    dsimp only
    rw [if_pos (by norm_num : (0 : ℚ) < ((80 : ℤ) : ℚ)),
        if_pos (by norm_num : (0 : ℚ) < ((50 : ℤ) : ℚ))]
    set B := ({ st with gatesPassed := st.gatesPassed + 1 } : ScoreSystem) with hB
    have hB0 : 0 ≤ B.score := h0
    have hBc : (0 : ℚ) ≤ B.combo := hcb
    obtain ⟨s1, n1⟩ := add_score_pos_eval B ((100 : ℤ) : ℚ) hB0 (by norm_num) hBc
    obtain ⟨s2, n2⟩ := add_score_pos_eval (B.add ((100 : ℤ) : ℚ) true) ((80 : ℤ) : ℚ)
      n1 (by norm_num) hBc
    obtain ⟨s3, _⟩ := add_score_pos_eval ((B.add ((100 : ℤ) : ℚ) true).add ((80 : ℤ) : ℚ) true)
      ((50 : ℤ) : ℚ) n2 (by norm_num) hBc
    rw [s3, s2, s1]
    rw [jsTrunc_intCast, jsTrunc_intCast, jsTrunc_intCast]
    have hc100 : ((((100 : ℤ) : ℤ) : ℚ)) = (100 : ℚ) := by norm_num
    have hc80 : ((((80 : ℤ) : ℤ) : ℚ)) = (80 : ℚ) := by norm_num
    have hc50 : ((((50 : ℤ) : ℤ) : ℚ)) = (50 : ℚ) := by norm_num
    rw [hc100, hc80, hc50]
    have hBsc : B.score = st.score := rfl
    have hBcb : B.combo = st.combo := rfl
    simp only [add_combo, hBsc, hBcb]

/-- Witness for C9: identity-oriented gate at the origin, agent at local
(0, 0, 1), speed 18, scoring applied to the initial ScoreSystem (combo 1). -/
theorem C9_witness :
    (Gate.passed ⟨⟨0, 0, 0⟩, ⟨0, 0, 1⟩, false, false, 0, 0⟩ = false) ∧
    ((Gate.worldToLocal ⟨⟨0, 0, 0⟩, ⟨0, 0, 1⟩, false, false, 0, 0⟩ ⟨0, 0, 1⟩).x = 0) ∧
    ((Gate.worldToLocal ⟨⟨0, 0, 0⟩, ⟨0, 0, 1⟩, false, false, 0, 0⟩ ⟨0, 0, 1⟩).y = 0) ∧
    (|(Gate.worldToLocal ⟨⟨0, 0, 0⟩, ⟨0, 0, 1⟩, false, false, 0, 0⟩ ⟨0, 0, 1⟩).z|
      ≤ (triggerDepth : ℝ) * (1/2)) ∧
    (GateCourse.passCheck ⟨0, 0, 1⟩ speedForMax ⟨⟨0, 0, 0⟩, ⟨0, 0, 1⟩, false, false, 0, 0⟩
      = (⟨⟨0, 0, 0⟩, ⟨0, 0, 1⟩, true, false, 0, 1⟩, [Call.cleared 100 80 50])) ∧
    ((applyCalls ScoreSystem.init [Call.cleared 100 80 50]).score
      = ScoreSystem.init.score + jsTrunc (100 * ScoreSystem.init.combo)
        + jsTrunc (80 * ScoreSystem.init.combo) + jsTrunc (50 * ScoreSystem.init.combo)) := by
  have hx : (Gate.worldToLocal ⟨⟨0, 0, 0⟩, ⟨0, 0, 1⟩, false, false, 0, 0⟩ ⟨0, 0, 1⟩).x = 0 := by
    norm_num [Gate.worldToLocal, Gate.axisXraw, V3.dot, V3.sub]
  have hy : (Gate.worldToLocal ⟨⟨0, 0, 0⟩, ⟨0, 0, 1⟩, false, false, 0, 0⟩ ⟨0, 0, 1⟩).y = 0 := by
    norm_num [Gate.worldToLocal, Gate.axisYraw, Gate.axisXraw, V3.cross, V3.dot, V3.sub]
  have hz : |(Gate.worldToLocal ⟨⟨0, 0, 0⟩, ⟨0, 0, 1⟩, false, false, 0, 0⟩ ⟨0, 0, 1⟩).z|
      ≤ (triggerDepth : ℝ) * (1/2) := by
    norm_num [Gate.worldToLocal, V3.dot, V3.sub, triggerDepth, Real.sqrt_one]
  have h := C9_center_pass_scores ⟨⟨0, 0, 0⟩, ⟨0, 0, 1⟩, false, false, 0, 0⟩ ⟨0, 0, 1⟩
    rfl hx hy hz
  exact ⟨rfl, hx, hy, hz, h.1, h.2.1 ScoreSystem.init (le_refl 0) (le_refl 1)⟩

/-! ## C7 -/

/-- The lanes chosen by successive spawns: each spawn consumes its own draw
list (chooseLane is self-delimiting, so this is the same as one global
stream), threading lastLane and sameLaneStreak course-wide. -/
def laneSeq : ℤ → ℕ → List (List ℚ) → List ℤ
  | _, _, [] => []
  | last, stk, d :: ds =>
    let r := GateCourse.chooseLane last stk d
    r.1 :: laneSeq r.2.1 r.2.2.1 ds

/-- Tail-recursive accumulator form of laneSeq, newest lane first. -/
def laneAcc : ℤ → ℕ → List ℤ → List (List ℚ) → List ℤ
  | _, _, acc, [] => acc
  | last, stk, acc, d :: ds =>
    let r := GateCourse.chooseLane last stk d
    laneAcc r.2.1 r.2.2.1 (r.1 :: acc) ds

/-- Length of the trailing run of equal values, on a newest-first list. -/
def trailRunR : List ℤ → ℕ
  | [] => 0
  | a :: rest =>
    match rest.head? with
    | some b => if b = a then trailRunR rest + 1 else 1
    | none => 1

theorem laneAcc_eq :
    ∀ (ds : List (List ℚ)) (last : ℤ) (stk : ℕ) (acc : List ℤ),
    laneAcc last stk acc ds = (laneSeq last stk ds).reverse ++ acc := by
  intro ds
  induction ds with
  | nil => intro last stk acc; simp [laneAcc, laneSeq]
  | cons d ds ih =>
    intro last stk acc
    simp only [laneAcc, laneSeq, ih, List.reverse_cons, List.append_assoc,
      List.cons_append, List.nil_append]

theorem chooseLane_snd_fst (last : ℤ) (stk : ℕ) (rng : List ℚ) :
    (GateCourse.chooseLane last stk rng).2.1 = (GateCourse.chooseLane last stk rng).1 := by
  simp only [GateCourse.chooseLane]
  split_ifs <;> rfl

theorem chooseLane_streak (last : ℤ) (stk : ℕ) (rng : List ℚ) :
    (GateCourse.chooseLane last stk rng).2.2.1
      = if (GateCourse.chooseLane last stk rng).1 = last then stk + 1 else 0 := by
  simp only [GateCourse.chooseLane]
  split_ifs <;> rfl

theorem getD_mem_of_lt (L : List ℤ) (n : ℕ) (d : ℤ) (h : n < L.length) :
    L.getD n d ∈ L := by
  unfold List.getD
  rw [List.get?_eq_get h]
  simp only [Option.getD_some]
  exact List.get_mem L n h

/-- When the same-lane streak has reached 2, chooseLane picks from the two
lanes different from the last one: the chosen lane always differs. -/
theorem chooseLane_forced (last : ℤ) (stk : ℕ) (rng : List ℚ)
    (h2 : 2 ≤ stk) (hr : RngOk rng) :
    (GateCourse.chooseLane last stk rng).1 ≠ last := by
  simp only [GateCourse.chooseLane]
  rw [if_pos h2]
  set choices := List.filter (fun x => decide (x ≠ last)) ([-1, 0, 1] : List ℤ) with hch
  set r2 := rng.tail.headD 0 with hr2def
  show choices.getD (Int.toNat ⌊r2 * (choices.length : ℚ)⌋) 0 ≠ last
  have hmem0 : (if last = 0 then (1 : ℤ) else 0) ∈ choices := by
    by_cases hl : last = 0
    · rw [if_pos hl, hch]
      refine List.mem_filter.mpr ⟨by norm_num, ?_⟩
      rw [hl]
      norm_num
    · rw [if_neg hl, hch]
      refine List.mem_filter.mpr ⟨by norm_num, ?_⟩
      simpa using fun h => hl h.symm
  have hpos : 0 < choices.length := List.length_pos.mpr (List.ne_nil_of_mem hmem0)
  have hr2 := rngOk_headD (RngOk.mono (List.tail_suffix rng) hr)
  rw [← hr2def] at hr2
  have hidx : Int.toNat ⌊r2 * (choices.length : ℚ)⌋ < choices.length := by
    have hlenpos : (0 : ℚ) < (choices.length : ℚ) := by exact_mod_cast hpos
    have hub : r2 * (choices.length : ℚ) < (choices.length : ℚ) := by
      nlinarith [hr2.1, hr2.2]
    have hlb : 0 ≤ r2 * (choices.length : ℚ) := mul_nonneg hr2.1 (le_of_lt hlenpos)
    have hfl : ⌊r2 * (choices.length : ℚ)⌋ < (choices.length : ℤ) := by
      rw [Int.floor_lt]
      exact_mod_cast hub
    have h0 : 0 ≤ ⌊r2 * (choices.length : ℚ)⌋ := Int.floor_nonneg.mpr hlb
    omega
  have hmem : choices.getD (Int.toNat ⌊r2 * (choices.length : ℚ)⌋) 0 ∈ choices :=
    getD_mem_of_lt _ _ _ hidx
  have hprop : ∀ x ∈ choices, x ≠ last := by
    intro x hx
    rw [hch] at hx
    simpa using (List.mem_filter.mp hx).2
  exact hprop _ hmem

/-- The run-length bookkeeping invariant carried across spawns: streak at most
2, the trailing run of emitted lanes at most streak + 1, and lastLane is the
most recently emitted lane. -/
def LaneInv (last : ℤ) (stk : ℕ) (acc : List ℤ) : Prop :=
  stk ≤ 2 ∧ trailRunR acc ≤ stk + 1 ∧ (acc = [] ∨ acc.head? = some last)

theorem trailRunR_pos (a : ℤ) (rest : List ℤ) : 1 ≤ trailRunR (a :: rest) := by
  cases rest with
  | nil => simp [trailRunR]
  | cons b r =>
    simp only [trailRunR, List.head?_cons]
    split_ifs <;> omega

theorem chooseLane_step_inv (last : ℤ) (stk : ℕ) (acc : List ℤ) (d : List ℚ)
    (hI : LaneInv last stk acc) (hd : RngOk d) :
    LaneInv (GateCourse.chooseLane last stk d).2.1
            (GateCourse.chooseLane last stk d).2.2.1
            ((GateCourse.chooseLane last stk d).1 :: acc) := by
  obtain ⟨h2, hrun, hhead⟩ := hI
  have hlast' := chooseLane_snd_fst last stk d
  have hstk' := chooseLane_streak last stk d
  by_cases heq : (GateCourse.chooseLane last stk d).1 = last
  · have hstk2 : stk ≤ 1 := by
      by_contra hgt
      exact (chooseLane_forced last stk d (by omega) hd) heq
    refine ⟨?_, ?_, ?_⟩
    · rw [hstk', if_pos heq]
      omega
    · rw [hstk', if_pos heq]
      cases acc with
      | nil => simp [trailRunR]
      | cons a rest =>
        have ha : a = last := by
          rcases hhead with h | h
          · exact absurd h (List.cons_ne_nil a rest)
          · simpa using h
        have he : trailRunR ((GateCourse.chooseLane last stk d).1 :: a :: rest)
            = trailRunR (a :: rest) + 1 := by
          simp only [trailRunR, List.head?_cons]
          rw [if_pos (ha.trans heq.symm)]
        omega
    · rw [hlast']
      right
      rfl
  · refine ⟨?_, ?_, ?_⟩
    · rw [hstk', if_neg heq]
      omega
    · rw [hstk', if_neg heq]
      cases acc with
      | nil => simp [trailRunR]
      | cons a rest =>
        have ha : a = last := by
          rcases hhead with h | h
          · exact absurd h (List.cons_ne_nil a rest)
          · simpa using h
        have he : trailRunR ((GateCourse.chooseLane last stk d).1 :: a :: rest) = 1 := by
          simp only [trailRunR, List.head?_cons]
          rw [if_neg (fun hc => heq (hc.symm.trans ha))]
        omega
    · rw [hlast']
      right
      rfl

theorem laneAcc_run_le :
    ∀ (ds : List (List ℚ)) (last : ℤ) (stk : ℕ) (acc : List ℤ),
    (∀ d ∈ ds, RngOk d) → LaneInv last stk acc →
    trailRunR (laneAcc last stk acc ds) ≤ 3 := by
  intro ds
  induction ds with
  | nil =>
    intro last stk acc _ hI
    obtain ⟨h2, hr, _⟩ := hI
    simp only [laneAcc]
    omega
  | cons d ds ih =>
    intro last stk acc hd hI
    simp only [laneAcc]
    exact ih _ _ _ (fun u hu => hd u (List.mem_cons_of_mem d hu))
      (chooseLane_step_inv last stk acc d hI (hd d (List.mem_cons_self d ds)))

theorem laneSeq_take :
    ∀ (ds : List (List ℚ)) (last : ℤ) (stk : ℕ) (n : ℕ),
    (laneSeq last stk ds).take n = laneSeq last stk (ds.take n) := by
  intro ds
  induction ds with
  | nil => intro last stk n; simp [laneSeq]
  | cons d ds ih =>
    intro last stk n
    cases n with
    | zero => simp [laneSeq]
    | succ m => simp only [laneSeq, List.take_succ_cons, ih]

theorem laneSeq_mem :
    ∀ (ds : List (List ℚ)) (last : ℤ) (stk : ℕ) (v : ℤ),
    v ∈ laneSeq last stk ds → v = -1 ∨ v = 0 ∨ v = 1 := by
  intro ds
  induction ds with
  | nil => intro last stk v h; simp [laneSeq] at h
  | cons d ds ih =>
    intro last stk v h
    simp only [laneSeq, List.mem_cons] at h
    rcases h with h | h
    · rw [h]
      exact chooseLane_fst_mem last stk d
    · exact ih _ _ v h

theorem trailRunR_four (v : ℤ) (xs : List ℤ) :
    4 ≤ trailRunR (v :: v :: v :: v :: xs) := by
  have h1 : 1 ≤ trailRunR (v :: xs) := trailRunR_pos v xs
  have e3 : trailRunR (v :: v :: xs) = trailRunR (v :: xs) + 1 := by
    simp [trailRunR]
  have e2 : trailRunR (v :: v :: v :: xs) = trailRunR (v :: v :: xs) + 1 := by
    simp [trailRunR]
  have e1 : trailRunR (v :: v :: v :: v :: xs) = trailRunR (v :: v :: v :: xs) + 1 := by
    simp [trailRunR]
  omega

/-- C7: spawned lanes are always in {-1, 0, +1}, no lane repeats more than 3
times consecutively in any spawn sequence under the Math.random contract, and
once the same-lane streak reaches 2 the next chosen lane must differ from the
last one. -/
theorem C7_lane_run_bound (ds : List (List ℚ)) (hd : ∀ d ∈ ds, RngOk d) :
    (∀ v ∈ laneSeq 0 0 ds, v = -1 ∨ v = 0 ∨ v = 1) ∧
    (∀ (pre post : List ℤ) (v : ℤ), laneSeq 0 0 ds ≠ pre ++ v :: v :: v :: v :: post) ∧
    (∀ (last : ℤ) (stk : ℕ) (rng : List ℚ), RngOk rng → 2 ≤ stk →
      (GateCourse.chooseLane last stk rng).1 ≠ last) := by
  refine ⟨fun v hv => laneSeq_mem ds 0 0 v hv, ?_,
    fun last stk rng hr h2 => chooseLane_forced last stk rng h2 hr⟩
  intro pre post v heq
  have htake := congrArg (List.take (pre.length + 4)) heq
  rw [laneSeq_take] at htake
  have hpre : (pre ++ v :: v :: v :: v :: post).take (pre.length + 4)
      = pre ++ [v, v, v, v] := by
    rw [List.take_append]
    rfl
  rw [hpre] at htake
  have hinv := laneAcc_run_le (ds.take (pre.length + 4)) 0 0 []
    (fun u hu => hd u (List.take_subset _ _ hu))
    ⟨by omega, by simp [trailRunR], Or.inl rfl⟩
  rw [laneAcc_eq, List.append_nil, htake] at hinv
  rw [List.reverse_append] at hinv
  have : 4 ≤ trailRunR ([v, v, v, v].reverse ++ pre.reverse) := by
    simpa using trailRunR_four v pre.reverse
  omega

/-- Witness for C7: three concrete spawns with valid draws. -/
theorem C7_witness :
    (∀ d ∈ [[(0 : ℚ), 0, 0], [0, 0, 0], [0, 0, 0]], RngOk d) ∧
    (∀ v ∈ laneSeq 0 0 [[(0 : ℚ), 0, 0], [0, 0, 0], [0, 0, 0]],
      v = -1 ∨ v = 0 ∨ v = 1) ∧
    (∀ (pre post : List ℤ) (v : ℤ),
      laneSeq 0 0 [[(0 : ℚ), 0, 0], [0, 0, 0], [0, 0, 0]]
        ≠ pre ++ v :: v :: v :: v :: post) := by
  have hd : ∀ d ∈ [[(0 : ℚ), 0, 0], [0, 0, 0], [0, 0, 0]], RngOk d := by
    intro d hd'
    simp only [List.mem_cons, List.not_mem_nil, or_false] at hd'
    rcases hd' with h | h | h <;> subst h <;>
      (intro q hq; simp at hq; subst hq; norm_num)
  have h := C7_lane_run_bound [[(0 : ℚ), 0, 0], [0, 0, 0], [0, 0, 0]] hd
  exact ⟨hd, h.1, h.2.1⟩

/-! ## C4 -/

/-- A gate of the initial pool (identity orientation, 80 units ahead of the
origin) for the non-finite-input scenario. -/
def cexGate : JGate :=
  ⟨⟨JsNum.fin 0, JsNum.fin 2.6, JsNum.fin (-80)⟩,
   ⟨JsNum.fin 0, JsNum.fin 0, JsNum.fin 1⟩, false, false, 0, 0⟩

/-- Agent position with a NaN z component. -/
def cexPosNaN : JV3 := ⟨JsNum.fin 0, JsNum.fin 0, JsNum.nan⟩

/-- The same position with the non-finite component replaced by zero, as the
claim says the core should behave. -/
def cexPosZero : JV3 := ⟨JsNum.fin 0, JsNum.fin 0, JsNum.fin 0⟩

def cexFwd : JV3 := ⟨JsNum.fin 0, JsNum.fin 0, JsNum.fin (-1)⟩

def cexCourse : JGateCourse := ⟨[cexGate], 0, 0, cexFwd⟩

theorem cex_pass1_nan :
    jsPass1 cexPosNaN cexFwd ⟨0, 0, []⟩ [cexGate] = ([cexGate], ⟨0, 0, []⟩, []) := by
  simp only [jsPass1, jsRecycleStep, jsShouldRecycle, JV3.sub, JV3.dot, jsSub, jsNeg,
    jsAdd, jsMul, jsLtB, jsGtB, cexPosNaN, cexFwd, cexGate]
  norm_num

theorem cex_floor13 : (⌊(50 : ℚ) * (5 / 18)⌋ : ℤ) = 13 := by
  rw [show (50 : ℚ) * (5 / 18) = 125 / 9 by norm_num]
  rw [Int.floor_eq_iff]
  norm_num

theorem cex_passCheck_nan :
    jsPassCheck cexPosNaN (JsNum.fin 5) cexGate
      = ({ cexGate with passed := true, wasAhead := false, flash := (1 : ℚ) },
         [JsCall.cleared (JsNum.fin ((basePoints : ℤ) : ℚ)) JsNum.nan (JsNum.fin 13)]) := by
  simp only [jsPassCheck, JGate.axisXraw, JGate.axisYraw, jsCross, JV3.sub, JV3.dot, jsSub,
    jsNeg, jsAdd, jsMul, jsDiv, jsLtB, jsGtB, jsMax, jsMin, jsFloorN, jsCenterScore,
    cexPosNaN, cexFwd, cexGate, gateW, gateH, triggerDepth, speedForMax, speedBonusMax]
  norm_num [cex_floor13]

theorem cex_pass1_zero :
    jsPass1 cexPosZero cexFwd ⟨0, 0, []⟩ [cexGate]
      = ([{ cexGate with wasAhead := true }], ⟨0, 0, []⟩, []) := by
  simp only [jsPass1, jsRecycleStep, jsShouldRecycle, JV3.sub, JV3.dot, jsSub, jsNeg,
    jsAdd, jsMul, jsLtB, jsGtB, cexPosZero, cexFwd, cexGate, behindRecycle, farRecycle]
  norm_num

theorem cex_passCheck_zero :
    jsPassCheck cexPosZero (JsNum.fin 5) { cexGate with wasAhead := true }
      = ({ cexGate with wasAhead := true }, []) := by
  simp only [jsPassCheck, JGate.axisXraw, JGate.axisYraw, jsCross, JV3.sub, JV3.dot, jsSub,
    jsNeg, jsAdd, jsMul, jsDiv, jsLtB, jsGtB, cexPosZero, cexFwd, cexGate, gateW, gateH,
    triggerDepth]
  norm_num

theorem cex_score_nan :
    (jsApplyCalls ScoreSystem.init
        [JsCall.cleared (JsNum.fin ((basePoints : ℤ) : ℚ)) JsNum.nan (JsNum.fin 13)]).score
      = 113 ∧
    (jsApplyCalls ScoreSystem.init
        [JsCall.cleared (JsNum.fin ((basePoints : ℤ) : ℚ)) JsNum.nan (JsNum.fin 13)]).timeSinceScore
      = 0 := by
  have h13 : jsTrunc (13 : ℚ) = 13 := by
    rw [show (13 : ℚ) = ((13 : ℤ) : ℚ) by norm_num]
    exact jsTrunc_intCast 13
  have h13' : jsTrunc (((13 : ℤ) : ℚ) * 1) = 13 := by
    rw [mul_one]
    exact jsTrunc_intCast 13
  have h100 : jsTrunc (((100 : ℤ) : ℚ)) = 100 := jsTrunc_intCast 100
  have h100' : jsTrunc (((100 : ℤ) : ℚ) * 1) = 100 := by
    rw [mul_one]
    exact jsTrunc_intCast 100
  have g100 : jsTrunc ((100 : ℚ)) = 100 := by
    rw [show (100 : ℚ) = ((100 : ℤ) : ℚ) by norm_num]
    exact jsTrunc_intCast 100
  have g100' : jsTrunc ((100 : ℚ) * 1) = 100 := by
    rw [mul_one]
    exact g100
  simp only [jsApplyCalls, List.foldl_cons, List.foldl_nil, jsApplyCall,
    ScoreSystem.onGateClearedJ, ScoreSystem.addJ, ScoreSystem.add, ScoreSystem.init,
    jsGtB, jsLtB, basePoints]
  norm_num [h13, h13', h100, h100', g100, g100', jsTrunc_intCast, max_def]

/-- C4 counterexample: GateCourse.update performs no finiteness check.  With a
NaN position z component, every containment guard compares false (JS NaN
semantics), so the one unpassed gate is marked passed and scored: the stored
passed flag flips, the score rises to 113 and the score timer resets — while
the same tick with the NaN component replaced by zero (what the claim says
should happen) recycles nothing, passes nothing, and leaves score 0 and timer
999.  The non-finite input is therefore neither treated as zero for the tick
nor kept out of stored state. -/
theorem C4_counterexample :
    ((jsUpdate 0.016 cexPosNaN (JsNum.fin 5) cexFwd cexCourse []).1.gates.map JGate.passed
       = [true]) ∧
    ((jsUpdate 0.016 cexPosNaN (JsNum.fin 5) cexFwd cexCourse []).2.1
       = [JsCall.cleared (JsNum.fin ((basePoints : ℤ) : ℚ)) JsNum.nan (JsNum.fin 13)]) ∧
    ((jsApplyCalls ScoreSystem.init
        (jsUpdate 0.016 cexPosNaN (JsNum.fin 5) cexFwd cexCourse []).2.1).score = 113) ∧
    ((jsApplyCalls ScoreSystem.init
        (jsUpdate 0.016 cexPosNaN (JsNum.fin 5) cexFwd cexCourse []).2.1).timeSinceScore = 0) ∧
    ((jsUpdate 0.016 cexPosZero (JsNum.fin 5) cexFwd cexCourse []).1.gates.map JGate.passed
       = [false]) ∧
    ((jsUpdate 0.016 cexPosZero (JsNum.fin 5) cexFwd cexCourse []).2.1 = []) ∧
    ((jsApplyCalls ScoreSystem.init
        (jsUpdate 0.016 cexPosZero (JsNum.fin 5) cexFwd cexCourse []).2.1).score = 0) ∧
    ((jsApplyCalls ScoreSystem.init
        (jsUpdate 0.016 cexPosZero (JsNum.fin 5) cexFwd cexCourse []).2.1).timeSinceScore
       = 999) := by
  have hun : jsUpdate 0.016 cexPosNaN (JsNum.fin 5) cexFwd cexCourse []
      = (⟨[{ cexGate with passed := true, wasAhead := false, flash := (1 : ℚ) }], 0, 0, cexFwd⟩,
         [JsCall.cleared (JsNum.fin ((basePoints : ℤ) : ℚ)) JsNum.nan (JsNum.fin 13)], []) := by
    simp only [jsUpdate, cexCourse]
    rw [cex_pass1_nan]
    simp only [jsPass2]
    rw [cex_passCheck_nan]
    simp
  have huz : jsUpdate 0.016 cexPosZero (JsNum.fin 5) cexFwd cexCourse []
      = (⟨[{ cexGate with wasAhead := true }], 0, 0, cexFwd⟩, [], []) := by
    simp only [jsUpdate, cexCourse]
    rw [cex_pass1_zero]
    simp only [jsPass2]
    rw [cex_passCheck_zero]
    simp
  rw [hun, huz]
  refine ⟨rfl, rfl, ?_, ?_, rfl, rfl, rfl, rfl⟩
  · exact cex_score_nan.1
  · exact cex_score_nan.2

/-- C4 amended: ScoreSystem does guard its boundary — add ignores non-finite
point values entirely and onCrash maps a non-finite speed to 0 — so no
non-finite value reaches the stored score state; GateCourse.update, however,
has no such checks (see the counterexample). -/
theorem C4_scoresystem_guards_nonfinite (st : ScoreSystem) (p : JsNum) (ac : Bool)
    (h : p.isFinite = false) :
    st.addJ p ac = st ∧ st.onCrashJ p = st.onCrash 0 := by
  cases p with
  | fin q => simp [JsNum.isFinite] at h
  | inf s => exact ⟨rfl, rfl⟩
  | nan => exact ⟨rfl, rfl⟩

/-- Witness for the amended C4 at NaN and the initial state. -/
theorem C4_amended_witness :
    JsNum.isFinite JsNum.nan = false ∧
    (ScoreSystem.addJ ScoreSystem.init JsNum.nan true = ScoreSystem.init ∧
     ScoreSystem.onCrashJ ScoreSystem.init JsNum.nan = ScoreSystem.onCrash ScoreSystem.init 0) :=
  ⟨rfl, C4_scoresystem_guards_nonfinite ScoreSystem.init JsNum.nan true rfl⟩

/-! ## Validation of the centering-bonus embedding against the source formula -/

theorem length_filter_range_le (n m : ℕ) :
    ((List.range n).filter (fun j => decide (j ≤ m))).length = min n (m + 1) := by
  induction n with
  | zero => simp
  | succ n ih =>
    rw [List.range_succ, List.filter_append, List.length_append, ih]
    by_cases h : n ≤ m
    · have he : List.filter (fun j => decide (j ≤ m)) [n] = [n] := by simp [h]
      rw [he, List.length_singleton]
      omega
    · have he : List.filter (fun j => decide (j ≤ m)) [n] = [] := by simp [h]
      rw [he, List.length_nil]
      omega

/-- The exact integer characterisation equals the source's
Math.floor(80 · clamp(1 − Math.sqrt(s), 0, 1)) over the reals. -/
theorem centerScoreFloor_eq_floor (s : ℚ) (hs : 0 ≤ s) :
    centerScoreFloor s = ⌊(80 : ℝ) * max 0 (min 1 (1 - Real.sqrt (s : ℝ)))⌋ := by
  have hsR : (0 : ℝ) ≤ (s : ℝ) := by exact_mod_cast hs
  have hr0 : 0 ≤ Real.sqrt (s : ℝ) := Real.sqrt_nonneg _
  by_cases h1 : 1 < s
  · -- the clamp floors at 0: the whole bonus is 0
    have h1R : (1 : ℝ) < (s : ℝ) := by exact_mod_cast h1
    have hrg : 1 < Real.sqrt (s : ℝ) := by
      have := Real.sqrt_lt_sqrt (by norm_num) h1R
      rwa [Real.sqrt_one] at this
    have hmin : min (1 : ℝ) (1 - Real.sqrt (s : ℝ)) = 1 - Real.sqrt (s : ℝ) :=
      min_eq_right (by linarith)
    have hmax : max (0 : ℝ) (1 - Real.sqrt (s : ℝ)) = 0 := max_eq_left (by linarith)
    rw [centerScoreFloor, if_pos h1, hmin, hmax, mul_zero, Int.floor_zero]
  · push_neg at h1
    have hrle : Real.sqrt (s : ℝ) ≤ 1 := Real.sqrt_le_one.mpr (by exact_mod_cast h1)
    have hmin : min (1 : ℝ) (1 - Real.sqrt (s : ℝ)) = 1 - Real.sqrt (s : ℝ) :=
      min_eq_right (by linarith)
    have hmax : max (0 : ℝ) (1 - Real.sqrt (s : ℝ)) = 1 - Real.sqrt (s : ℝ) :=
      max_eq_right (by linarith)
    rw [centerScoreFloor, if_neg (not_lt.mpr h1), hmin, hmax]
    set r := Real.sqrt (s : ℝ) with hrdef
    set k := ⌊(80 : ℝ) * (1 - r)⌋ with hkdef
    have hk0 : 0 ≤ k := Int.floor_nonneg.mpr (by nlinarith)
    have hk80 : k ≤ 80 := by
      have : (80 : ℝ) * (1 - r) ≤ (80 : ℝ) := by nlinarith
      calc k ≤ ⌊(80 : ℝ)⌋ := Int.floor_le_floor this
      _ = 80 := by
          rw [show ((80 : ℝ)) = ((80 : ℤ) : ℝ) by norm_num, Int.floor_intCast]
    -- each j in [0, 80] satisfies the squared test iff j ≤ k
    have hiff : ∀ j ∈ List.range 81,
        decide (6400 * s ≤ (((80 : ℤ) - (j : ℤ) : ℤ) : ℚ) ^ 2)
          = decide (j ≤ k.toNat) := by
      intro j hj
      have hj80 : j ≤ 80 := by
        rw [List.mem_range] at hj
        omega
      rw [decide_eq_decide]
      have hcast : ((6400 * s : ℚ) : ℝ) ≤ (((((80 : ℤ) - (j : ℤ) : ℤ) : ℚ)) : ℝ) ^ 2
          ↔ 6400 * s ≤ (((80 : ℤ) - (j : ℤ) : ℤ) : ℚ) ^ 2 := by
        rw [show (((((80 : ℤ) - (j : ℤ) : ℤ) : ℚ)) : ℝ) ^ 2
              = (((((80 : ℤ) - (j : ℤ) : ℤ) : ℚ) ^ 2 : ℚ) : ℝ) by push_cast; ring]
        exact Rat.cast_le
      rw [← hcast]
      have hj80R : (0 : ℝ) ≤ 80 - (j : ℝ) := by
        have : (j : ℝ) ≤ 80 := by exact_mod_cast hj80
        linarith
      have hsq : ((6400 * s : ℚ) : ℝ) = (80 * r) ^ 2 := by
        rw [hrdef]
        rw [mul_pow, Real.sq_sqrt hsR]
        push_cast
        ring
      have hrhs : (((((80 : ℤ) - (j : ℤ) : ℤ) : ℚ)) : ℝ) ^ 2 = (80 - (j : ℝ)) ^ 2 := by
        push_cast
        ring
      rw [hsq, hrhs]
      have hstep : (80 * r) ^ 2 ≤ (80 - (j : ℝ)) ^ 2 ↔ 80 * r ≤ 80 - (j : ℝ) := by
        constructor
        · intro h
          nlinarith [mul_nonneg (by norm_num : (0:ℝ) ≤ 80) hr0]
        · intro h
          nlinarith [mul_nonneg (by norm_num : (0:ℝ) ≤ 80) hr0]
      rw [hstep]
      have hfl : (j : ℤ) ≤ k ↔ (80 : ℝ) * r ≤ 80 - (j : ℝ) := by
        rw [hkdef, Int.le_floor]
        constructor
        · intro h
          push_cast at h
          linarith
        · intro h
          push_cast
          linarith
      constructor
      · intro h
        have : (j : ℤ) ≤ k := hfl.mpr (by linarith)
        omega
      · intro h
        have : (j : ℤ) ≤ k := by omega
        have := hfl.mp this
        linarith
    rw [List.filter_congr hiff, length_filter_range_le]
    have : min 81 (k.toNat + 1) = k.toNat + 1 := by omega
    rw [this]
    omega
